import Mathlib

/-!
Verification development for the sass-merge incremental stylesheet merger.

This file gives a shallow embedding of the merger's core: the per-file
multi-syntax content cache (SassMergeFile), the format detection, the
regex-based scanners for directive detection, the graph loader, the batch
conversion selection, the recursive assembler with cycle detection, and the
build orchestrator.  Filesystem reads, the external conversion tool and the
manifest read are modelled as oracle parameters, matching the design's view
of them as external collaborators.  JavaScript strings are modelled as Lean
strings (lists of characters); JavaScript objects used as string-keyed maps
are modelled as association lists preserving insertion order, which is the
iteration order of string-keyed JavaScript objects.  Regex scans are
modelled as explicit character scanners with the same leftmost-match,
resume-after-match discipline as global JavaScript regexes; the whitespace
class is modelled by its ASCII members, and pathological backtracking
through malformed escape sequences or unbalanced braces (never exercised
here) is not modelled.
-/

namespace SassMerge

/-- Decidable equality of computation outcomes, used to evaluate the
embedding at concrete inputs. -/
instance {ε α : Type _} [DecidableEq ε] [DecidableEq α] : DecidableEq (Except ε α) := fun a b =>
  match a, b with
  | .error e, .error f =>
    if h : e = f then .isTrue (by rw [h]) else .isFalse (fun c => by cases c; exact h rfl)
  | .error _, .ok _ => .isFalse (fun c => by cases c)
  | .ok _, .error _ => .isFalse (fun c => by cases c)
  | .ok x, .ok y =>
    if h : x = y then .isTrue (by rw [h]) else .isFalse (fun c => by cases c; exact h rfl)

/-- One parsed directive occurrence: target path, byte span in the original
text, and captured leading whitespace for indented-syntax re-indentation. -/
structure ImportRef where
  filePath : String
  index : Nat
  endIndex : Nat
  indentation : String
deriving Repr, DecidableEq

/-- One syntax variant's cache slot: raw text, rendered text, and the lazily
computed directive list (a missing list is the JavaScript null). -/
structure SlotContent where
  original : Option String
  final : Option String
  imports : Option (List ImportRef)
deriving Repr, DecidableEq

/-- Per-path file record with the three syntax slots, mirroring the
SassMergeFile class. -/
structure SassMergeFile where
  path : String
  originalFormat : String
  css : SlotContent
  scss : SlotContent
  sass : SlotContent
  buildTime : Nat
deriving Repr, DecidableEq

/-- Map from absolute path to file record; an insertion-ordered association
list, as a string-keyed JavaScript object behaves. -/
abbrev FilesMap := List (String × SassMergeFile)

/-- Errors surfaced by the builder.  The circular constructor carries the
path list the thrown message is rendered from; fuelExhausted marks runs of
the source's unbounded recursions that do not terminate within the given
fuel. -/
inductive BuildError where
  | circular (chain : List String)
  | missingFile (missing fromPath : String)
  | unknownFormat (p : String)
  | manifestBroken
  | conversionFailed
  | buildInProgress
  | typeError
  | fuelExhausted
deriving Repr, DecidableEq

/-! ### determineFileFormat

The source matches the pattern dot-then-(css or sass or scss)
case-insensitively, unanchored, and returns the first captured group in its
original casing. -/

/-- Case-insensitive literal match on characters, returning the matched
source characters (original casing) and the rest. -/
def eatLitCI : List Char → List Char → Option (List Char × List Char)
  | [], cs => some ([], cs)
  | _ :: _, [] => none
  | l :: ls, c :: cs =>
    if c.toLower = l.toLower then
      match eatLitCI ls cs with
      | some (raw, rest) => some (c :: raw, rest)
      | none => none
    else none

/-- Try the alternation css, sass, scss (in that order) case-insensitively at
the characters following a dot; returns the matched source characters. -/
def matchFormatAlt (cs : List Char) : Option (List Char) :=
  match eatLitCI (String.data ("css")) cs with
  | some (raw, _) => some raw
  | none =>
    match eatLitCI (String.data ("sass")) cs with
    | some (raw, _) => some raw
    | none =>
      match eatLitCI (String.data ("scss")) cs with
      | some (raw, _) => some raw
      | none => none

/-- Leftmost occurrence scan for the format pattern. -/
def determineFileFormatGo : List Char → Option String
  | [] => none
  | c :: rest =>
    if c = '.' then
      match matchFormatAlt rest with
      | some raw => some (String.mk raw)
      | none => determineFileFormatGo rest
    else determineFileFormatGo rest

/-- Determine stylesheet format by file path (determineFileFormat.js). -/
def determineFileFormat (filePath : String) : Option String :=
  determineFileFormatGo filePath.data

/-! ### SassMergeFile operations -/

/-- Slot lookup: the JavaScript content object has exactly the three keys;
any other format name reads as undefined. -/
def SassMergeFile.contentFor (f : SassMergeFile) (format : String) : Option SlotContent :=
  if format = "css" then some f.css
  else if format = "scss" then some f.scss
  else if format = "sass" then some f.sass
  else none

def SassMergeFile.getUnprocessedContent (f : SassMergeFile) (format : String) : Option String :=
  (f.contentFor format).bind (fun s => s.original)

def SassMergeFile.getFinalContent (f : SassMergeFile) (format : String) : Option String :=
  (f.contentFor format).bind (fun s => s.final)

def SassMergeFile.hasUnprocessedContent (f : SassMergeFile) (format : String) : Bool :=
  match f.contentFor format with
  | some s => s.original.isSome
  | none => false

def SassMergeFile.hasFinalContent (f : SassMergeFile) (format : String) : Bool :=
  match f.contentFor format with
  | some s => s.final.isSome
  | none => false

/-- setUnprocessedContent: the css branch mirrors content verbatim into the
css and scss slots (originals and finals) and pins the scss directive list
to the empty list; scss and sass branches reset their final text and
directive cache; the build marker is always stamped. -/
def SassMergeFile.setUnprocessedContent (f : SassMergeFile) (format content : String)
    (buildTime : Nat) : SassMergeFile :=
  let f' :=
    if format = "css" then
      { f with
        css := { original := some content, final := some content, imports := f.css.imports }
        scss := { original := some content, final := some content, imports := some [] } }
    else if format = "scss" then
      { f with scss := { original := some content, final := none, imports := none } }
    else if format = "sass" then
      { f with sass := { original := some content, final := none, imports := none } }
    else f
  { f' with buildTime := buildTime }

/-- setFinalContent: the css branch mirrors into the scss final slot; the
build marker is always stamped. -/
def SassMergeFile.setFinalContent (f : SassMergeFile) (format content : String)
    (buildTime : Nat) : SassMergeFile :=
  let f' :=
    if format = "css" then
      { f with
        css := { f.css with final := some content }
        scss := { f.scss with final := some content } }
    else if format = "scss" then
      { f with scss := { f.scss with final := some content } }
    else if format = "sass" then
      { f with sass := { f.sass with final := some content } }
    else f
  { f' with buildTime := buildTime }

/-- The SassMergeFile constructor: determines the native format from the
path (failing when none is found, which the caller observes as a thrown
error, here as none) and stores the given content for that format.  The css
slot's directive list starts as the empty list, the scss and sass ones as
null. -/
def SassMergeFile.make (filePath content : String) (buildTime : Nat) : Option SassMergeFile :=
  match determineFileFormat filePath with
  | none => none
  | some fmt =>
    let base : SassMergeFile :=
      { path := filePath
        originalFormat := fmt
        css := { original := none, final := none, imports := some [] }
        scss := { original := none, final := none, imports := none }
        sass := { original := none, final := none, imports := none }
        buildTime := 0 }
    some (base.setUnprocessedContent fmt content buildTime)

/-! ### Directive scanners

getImports recognises directives with two global regexes, one for scss
(quoted path, terminated by a semicolon, closing brace, or end of input)
and one for sass (line-anchored, quoted or bare path terminated by a
newline or end of input).  These scanners reproduce the global-regex
discipline: find the leftmost match at or after the resume position,
record it, resume after its end. -/

/-- Character-level string prefix test (the host startsWith). -/
def strStartsWith (s pre : String) : Bool :=
  pre.data.isPrefixOf s.data

/-- Character-level string drop (the host substr from an offset). -/
def strDrop (s : String) (n : Nat) : String :=
  String.mk (s.data.drop n)

/-- Character count of a string. -/
def strLen (s : String) : Nat :=
  s.data.length

def squoteChar : Char := Char.ofNat 39

def dquoteChar : Char := Char.ofNat 34

/-- The ASCII members of the regex whitespace class. -/
def isWsChar (c : Char) : Bool :=
  c = ' ' || c = '\t' || c = '\n' || c = '\r' || c = Char.ofNat 11 || c = Char.ofNat 12

/-- The blank class used for captured indentation: tab, carriage return, space. -/
def isBlankChar (c : Char) : Bool :=
  c = '\t' || c = '\r' || c = ' '

/-- Case-sensitive literal match; returns the rest. -/
def eatLit : List Char → List Char → Option (List Char)
  | [], cs => some cs
  | _ :: _, [] => none
  | l :: ls, c :: cs => if c = l then eatLit ls cs else none

/-- One-or-more whitespace characters, consumed greedily. -/
def eatWs1 (cs : List Char) : Option (List Char) :=
  match cs with
  | c :: t => if isWsChar c then some (t.dropWhile isWsChar) else none
  | [] => none

/-- Quoted-path body: one or more characters other than the quote, where a
backslash escapes the following character (except a newline, which the
escape construct cannot cross); the closing quote is consumed and the
unescaped value returned.  Escape-at-end backtracking is not modelled.  The
fuel (always supplied as more than the input length) only serves structural
recursion; every step consumes at least one character. -/
def quotedBody (q : Char) : Nat → List Char → List Char → Option (String × List Char)
  | 0, _, _ => none
  | _ + 1, _, [] => none
  | fuel + 1, acc, c :: t =>
    if c = q then
      if acc.isEmpty then none else some (String.mk acc.reverse, t)
    else if c = '\\' then
      match t with
      | [] => none
      | d :: t' => if d = '\n' then quotedBody q fuel (c :: acc) t else quotedBody q fuel (d :: acc) t'
    else quotedBody q fuel (c :: acc) t

/-- scss directive tail: optional whitespace then a semicolon, a closing
brace, or the end of the input; the terminator character is consumed. -/
def eatScssTail (cs : List Char) : Option (List Char) :=
  match cs.dropWhile isWsChar with
  | [] => some []
  | c :: t => if c = ';' || c = '}' then some t else none

/-- Index of the last newline in a character list. -/
def lastNewlineIdx : List Char → Option Nat
  | [] => none
  | c :: t =>
    match lastNewlineIdx t with
    | some j => some (j + 1)
    | none => if c = '\n' then some 0 else none

/-- sass directive tail: optional whitespace then a newline or the end of
the input.  Greedy whitespace with backtracking means the run extends to
its last contained newline, or to the end of the input when all remaining
characters are whitespace. -/
def eatSassTerm (cs : List Char) : Option (List Char) :=
  if (cs.takeWhile isWsChar).length = cs.length then some []
  else
    match lastNewlineIdx (cs.takeWhile isWsChar) with
    | some j => some (cs.drop (j + 1))
    | none => none

/-- Lazy bare-path part for the sass regex: grow one non-line-break
character at a time until the sass tail matches. -/
def litLoop : List Char → List Char → Option (String × List Char)
  | acc, cs =>
    match (if acc.isEmpty then none else eatSassTerm cs) with
    | some rest => some (String.mk acc.reverse, rest)
    | none =>
      match cs with
      | [] => none
      | c :: t => if c = '\n' || c = '\r' then none else litLoop (c :: acc) t

/-- Path part of the sass regex: single-quoted, double-quoted, or bare; a
failed quoted parse (including its tail) falls back to the bare branch,
which restarts at the quote character. -/
def sassPathPart (cs : List Char) : Option (String × List Char) :=
  match cs with
  | [] => none
  | q :: r3 =>
    if q = squoteChar || q = dquoteChar then
      match quotedBody q (r3.length + 1) [] r3 with
      | some (value, r4) =>
        match eatSassTerm r4 with
        | some r5 => some (value, r5)
        | none => litLoop [] cs
      | none => litLoop [] cs
    else litLoop [] cs

/-- The scss directive matcher at one position: the literal directive
keyword, whitespace, a quoted path, then the scss tail.  Returns the
unescaped path and the rest after the whole match. -/
def matchImportScss (cs : List Char) : Option (String × List Char) :=
  match eatLit (String.data ("@import")) cs with
  | none => none
  | some r1 =>
    match eatWs1 r1 with
    | none => none
    | some r2 =>
      match r2 with
      | [] => none
      | q :: r3 =>
        if q = squoteChar || q = dquoteChar then
          match quotedBody q (r3.length + 1) [] r3 with
          | none => none
          | some (value, r4) =>
            match eatScssTail r4 with
            | none => none
            | some r5 => some (value, r5)
        else none

/-- Body of the sass matcher after the optional leading newline: captured
blanks, the directive keyword, whitespace, the path part, the tail.  The
payload is the offset from the match start to the recorded index (the
length of the first capture group plus, again, the length of the second,
exactly as the source adds the two lengths), the path value, and the
captured indentation. -/
def matchImportSassBody (nlLen : Nat) (cs : List Char) :
    Option ((Nat × String × String) × List Char) :=
  let blanks := cs.takeWhile isBlankChar
  match eatLit (String.data ("@import")) (cs.dropWhile isBlankChar) with
  | none => none
  | some r1 =>
    match eatWs1 r1 with
    | none => none
    | some r2 =>
      match sassPathPart r2 with
      | none => none
      | some (value, r5) =>
        let delta := if nlLen = 0 then blanks.length else blanks.length + 2
        some ((delta, value, String.mk blanks), r5)

/-- The sass directive matcher at one position: the line anchor matches at a
line start, else a literal newline is consumed; the anchored alternative is
tried first. -/
def matchImportSass (lineStart : Bool) (cs : List Char) :
    Option ((Nat × String × String) × List Char) :=
  match (if lineStart then matchImportSassBody 0 cs else none) with
  | some r => some r
  | none =>
    match cs with
    | c :: t => if c = '\n' then matchImportSassBody 1 t else none
    | [] => none

/-- One step of the global-regex scan, parameterized by the continuation
for the remaining fuel: at a successful match, record (start, length,
payload) and resume after the match (bumping by one on an empty match, as
the host regex loop does); at a failure, advance one character.  The
tracked flag tells whether the current position is a line start. -/
def scanAllStep (m : Bool → List Char → Option (α × List Char))
    (next : Bool → Nat → List Char → List (Nat × Nat × α))
    (lineStart : Bool) (pos : Nat) (cs : List Char) : List (Nat × Nat × α) :=
  match m lineStart cs with
  | some (a, rest) =>
    if cs.length - rest.length = 0 then
      match cs with
      | [] => [(pos, cs.length - rest.length, a)]
      | c :: t => (pos, cs.length - rest.length, a) :: next (c = '\n') (pos + 1) t
    else
      (pos, cs.length - rest.length, a) ::
        next ((cs.take (cs.length - rest.length)).getLast? == some '\n')
          (pos + (cs.length - rest.length)) rest
  | none =>
    match cs with
    | [] => []
    | c :: t => next (c = '\n') (pos + 1) t

/-- Global-regex scan: walk forward to the leftmost position where the
matcher succeeds, repeating the step while fuel remains. -/
def scanAll (m : Bool → List Char → Option (α × List Char)) :
    Nat → Bool → Nat → List Char → List (Nat × Nat × α)
  | 0, _, _, _ => []
  | fuel + 1, lineStart, pos, cs => scanAllStep m (scanAll m fuel) lineStart pos cs

/-- All scss directives of a text, with their spans; occurrences whose path
names an external url are skipped (the scan still resumes after them). -/
def scanImportsScss (content : String) : List ImportRef :=
  ((scanAll (fun _ cs => matchImportScss cs) (content.data.length + 1) true 0 content.data).map
    (fun t => { filePath := t.2.2, index := t.1, endIndex := t.1 + t.2.1, indentation := "" }))
    |>.filter (fun r => !(strStartsWith r.filePath ("url(")))

/-- All sass directives of a text, with their spans and captured
indentation; the recorded index is offset from the match start by the two
capture-group lengths added by the source. -/
def scanImportsSass (content : String) : List ImportRef :=
  ((scanAll matchImportSass (content.data.length + 1) true 0 content.data).map
    (fun t => { filePath := t.2.2.2.1, index := t.1 + t.2.2.1, endIndex := t.1 + t.2.1,
                indentation := t.2.2.2.2 }))
    |>.filter (fun r => !(strStartsWith r.filePath ("url(")))

/-- getImports: a cached directive list (the css slot is born with the empty
list, which is truthy) is returned as-is; otherwise the slot's original
text is scanned with the format's regex.  The source also stores the
freshly computed list back into the slot; the store writes exactly the
value this recomputation yields, so reads are unaffected and the write-back
is not modelled. -/
def SassMergeFile.getImports (f : SassMergeFile) (format : String) : List ImportRef :=
  match f.contentFor format with
  | none => []
  | some slot =>
    match slot.imports with
    | some imps => imps
    | none =>
      match slot.original with
      | none => []
      | some content =>
        if format = "scss" then scanImportsScss content else scanImportsSass content

/-- Association-list lookup standing for indexing a string-keyed object. -/
def lookupFM : FilesMap → String → Option SassMergeFile
  | [], _ => none
  | (k, v) :: t, key => if k = key then some v else lookupFM t key

/-- Dependency loop of hasChanges: a dependency built in a later cycle, a
dependency without final content, or a recursively changed dependency makes
the file changed.  A dependency absent from the map would crash the source
with a property access on undefined, surfaced here as typeError. -/
def hasChangesDeps (hc : SassMergeFile → Except BuildError Bool) (f : SassMergeFile)
    (format : String) (files : FilesMap) : List ImportRef → Except BuildError Bool
  | [] => .ok false
  | d :: rest =>
    match lookupFM files d.filePath with
    | none => .error .typeError
    | some file =>
      if file.buildTime > f.buildTime then .ok true
      else if !(file.hasFinalContent format) then .ok true
      else
        match hc file with
        | .error e => .error e
        | .ok true => .ok true
        | .ok false => hasChangesDeps hc f format files rest

/-- hasChanges: a file without final content has changes; otherwise its
dependencies are walked recursively.  The source recursion carries no cycle
guard and no bound; the fuel models its potential nontermination on cyclic
graphs, never reached on the acyclic inputs of the claims. -/
def SassMergeFile.hasChanges : Nat → SassMergeFile → String → FilesMap → Except BuildError Bool
  | 0, _, _, _ => .error .fuelExhausted
  | fuel + 1, f, format, files =>
    let deps := f.getImports format
    if !(f.hasFinalContent format) then .ok true
    else hasChangesDeps (fun g => SassMergeFile.hasChanges fuel g format files) f format files deps

/-! ### Text optimization passes -/

/-- One blank-then-newline group: optional blanks followed by a newline. -/
def oneBlankGroup (cs : List Char) : Option (List Char) :=
  match cs.dropWhile isBlankChar with
  | '\n' :: t => some t
  | _ => none

/-- Greedy one-or-more chain of blank-then-newline groups. -/
def chainGroups : Nat → List Char → Option (List Char)
  | 0, _ => none
  | fuel + 1, cs =>
    match oneBlankGroup cs with
    | none => none
    | some t =>
      match chainGroups fuel t with
      | some t' => some t'
      | none => some t

/-- First pass of whitespace removal: an optional carriage return, a
newline, then one or more blank-then-newline groups collapse to a single
newline. -/
def ruwsPass1 : Nat → List Char → List Char
  | 0, cs => cs
  | fuel + 1, cs =>
    match cs with
    | [] => []
    | c :: rest =>
      let attempt : Option (List Char) :=
        if c = '\n' then chainGroups (rest.length + 1) rest
        else if c = '\r' then
          match rest with
          | '\n' :: r2 => chainGroups (r2.length + 1) r2
          | _ => none
        else none
      match attempt with
      | some t => '\n' :: ruwsPass1 fuel t
      | none => c :: ruwsPass1 fuel rest

/-- Second pass (brace formats only): whitespace runs at the start of the
input or directly after a newline are deleted; the anchoring newline is
kept. -/
def ruwsPass2 : Nat → Bool → List Char → List Char
  | 0, _, cs => cs
  | fuel + 1, atStart, cs =>
    match cs with
    | [] => []
    | c :: rest =>
      if atStart && isWsChar c then ruwsPass2 fuel false (rest.dropWhile isWsChar)
      else if c = '\n' then
        match rest with
        | d :: _ =>
          if isWsChar d then '\n' :: ruwsPass2 fuel false (rest.dropWhile isWsChar)
          else '\n' :: ruwsPass2 fuel false rest
        | [] => ['\n']
      else c :: ruwsPass2 fuel false rest

/-- removeUnnecessaryWhitespaces: collapse blank-line runs, and for the
scss and css formats also strip leading whitespace after line starts. -/
def removeUnnecessaryWhitespaces (code : String) (format : String) : String :=
  let d1 := ruwsPass1 (code.data.length + 1) code.data
  if format = "scss" || format = "css" then
    String.mk (ruwsPass2 (d1.length + 1) true d1)
  else
    String.mk d1

/-- Name characters of a variable: ASCII letters, digits, hyphen,
underscore. -/
def isVarNameChar (c : Char) : Bool :=
  c.isAlpha || c.isDigit || c = '-' || c = '_'

/-- Tail of a defaulted variable declaration: optional whitespace, the
default flag literal, optional whitespace, then a semicolon, a closing
brace, or the end of input. -/
def varDeclTail (cs : List Char) : Option (List Char) :=
  match eatLit (String.data ("!default")) (cs.dropWhile isWsChar) with
  | none => none
  | some r =>
    match r.dropWhile isWsChar with
    | [] => some []
    | c :: t => if c = ';' || c = '}' then some t else none

/-- Lazy value part of a defaulted variable declaration: grow one
non-semicolon character at a time until the tail matches. -/
def varValueLoop : Nat → List Char → Option (List Char)
  | 0, _ => none
  | fuel + 1, cs =>
    match cs with
    | [] => none
    | c :: t =>
      if c = ';' then none
      else
        match varDeclTail t with
        | some rest => some rest
        | none => varValueLoop fuel t

/-- Matcher for one defaulted variable declaration; returns the variable
name and the rest after the whole match. -/
def matchVarDecl (cs : List Char) : Option (String × List Char) :=
  match cs with
  | c :: r1 =>
    if c = '$' then
      let nameChars := r1.takeWhile isVarNameChar
      if nameChars.isEmpty then none
      else
        match r1.dropWhile isVarNameChar with
        | ':' :: r2 => (varValueLoop (r2.length + 1) (r2.dropWhile isWsChar)).map
            (fun rest => (String.mk nameChars, rest))
        | _ => none
    else none
  | [] => none

/-- Stateful scan of removeRedundantVariables: the first declaration of
each name is kept, later defaulted declarations of a seen name are
deleted. -/
def rrvGo : Nat → List String → List Char → List Char
  | 0, _, cs => cs
  | _ + 1, _, [] => []
  | fuel + 1, seen, cs =>
    match matchVarDecl cs with
    | some (name, rest) =>
      let len := cs.length - rest.length
      if name ∈ seen then rrvGo fuel seen rest
      else cs.take len ++ rrvGo fuel (name :: seen) rest
    | none =>
      match cs with
      | [] => []
      | c :: t => c :: rrvGo fuel seen t

/-- removeRedundantVariables: keep the first defaulted assignment per
variable name, ignoring nesting context; the format argument is unused by
the source as well. -/
def removeRedundantVariables (content : String) (_format : String) : String :=
  String.mk (rrvGo (content.data.length + 1) [] content.data)

/-- Balanced-brace block items up to the given remaining nesting depth: a
closing brace ends the block (at least one item required); an opening
brace opens a nested block while depth remains, and is swallowed as a
plain character at depth zero or when the nested parse fails.  The fuel
bounds the scan; the source regex instead explores these candidates by
backtracking. -/
def braceItems : Nat → Nat → List Char → Bool → Option (List Char)
  | 0, _, _, _ => none
  | _ + 1, _, [], _ => none
  | fuel + 1, depth, c :: t, consumed =>
    if c = '}' then
      if consumed then some t else none
    else if c = '{' && depth > 0 then
      match braceItems fuel (depth - 1) t false with
      | some r => braceItems fuel depth r true
      | none => braceItems fuel depth t true
    else braceItems fuel depth t true

/-- A brace block: an opening brace, items, a closing brace. -/
def braceBlock (depth : Nat) (cs : List Char) : Option (List Char) :=
  match cs with
  | '{' :: t => braceItems (cs.length * 32 + 32) depth t false
  | _ => none

/-- Declaration-kind characters: ASCII letters, hyphen, underscore (no
digits). -/
def isDeclNameChar (c : Char) : Bool :=
  c.isAlpha || c = '-' || c = '_'

/-- Matcher for one top-level mixin or function declaration: the at sign, a
case-insensitive kind keyword captured in its original casing, whitespace,
a name, optional whitespace, an optional nonempty parenthesis group, optional
whitespace, then a brace block of bounded depth.  Returns (length of the
whole match, raw kind, name). -/
def matchDecl (cs : List Char) : Option (Nat × String × String) :=
  match cs with
  | '@' :: r0 =>
    let kindAttempt : Option (List Char × List Char) :=
      match eatLitCI (String.data ("mixin")) r0 with
      | some kr => some kr
      | none => eatLitCI (String.data ("function")) r0
    match kindAttempt with
    | none => none
    | some (kindRaw, r1) =>
      match eatWs1 r1 with
      | none => none
      | some r2 =>
        let nameChars := r2.takeWhile isDeclNameChar
        if nameChars.isEmpty then none
        else
          let r3 := (r2.dropWhile isDeclNameChar).dropWhile isWsChar
          let r4attempt : Option (List Char) :=
            match r3 with
            | '(' :: p1 =>
              let body := p1.takeWhile (fun c => !(c = ')'))
              if body.isEmpty then none
              else
                match p1.dropWhile (fun c => !(c = ')')) with
                | ')' :: pr => some (pr.dropWhile isWsChar)
                | _ => none
            | _ => some r3
          match r4attempt with
          | none => none
          | some r4 =>
            match braceBlock 30 r4 with
            | none => none
            | some rest => some (cs.length - rest.length, String.mk kindRaw, String.mk nameChars)
  | _ => none

/-- String-keyed association lookup for the declaration containers. -/
def lookupS : List (String × String) → String → Option String
  | [], _ => none
  | (k, v) :: t, key => if k = key then some v else lookupS t key

/-- Replace-or-append for the declaration containers. -/
def setS : List (String × String) → String → String → List (String × String)
  | [], k, v => [(k, v)]
  | (k', v') :: t, k, v => if k' = k then (k', v) :: t else (k', v') :: setS t k v

/-- Stateful scan of removeRedundantFunctionsAndMixins: a matched block
whose container entry for its name equals its full text is deleted;
otherwise the block is kept and stored, overwriting any previous entry of
that name. -/
def rrfmGo : Nat → List (String × String) → List (String × String) → List Char → List Char
  | 0, _, _, cs => cs
  | _ + 1, _, _, [] => []
  | fuel + 1, mixins, functions, cs =>
    match matchDecl cs with
    | some (len, kindRaw, name) =>
      let code := String.mk (cs.take len)
      let container := if kindRaw = "mixin" then mixins else functions
      if lookupS container name = some code then
        rrfmGo fuel mixins functions (cs.drop len)
      else
        let container' := setS container name code
        let mixins' := if kindRaw = "mixin" then container' else mixins
        let functions' := if kindRaw = "mixin" then functions else container'
        cs.take len ++ rrfmGo fuel mixins' functions' (cs.drop len)
    | none =>
      match cs with
      | [] => []
      | c :: t => c :: rrfmGo fuel mixins functions t

/-- removeRedundantFunctionsAndMixins: the deduplication runs only for the
scss format; other formats pass through unchanged. -/
def removeRedundantFunctionsAndMixins (content : String) (format : String) : String :=
  if format = "scss" then
    String.mk (rrfmGo (content.data.length + 1) [] [] content.data)
  else content

/-! ### Builder

Disk reads (which in the source also rewrite directive specifiers to
resolved absolute paths and apply the initial optimization) are modelled by
an oracle from path to processed text; the external conversion tool by an
oracle from selected (path, text) pairs to converted (path, fragment)
pairs, abstracting the marker-bundling wire protocol the design treats as
external. -/

/-- The three option toggles the assembler consults. -/
structure BuildOptions where
  removeUnnecessaryWhitespaces : Bool
  optimizeRedundantFunctionsAndMixins : Bool
  optimizeRedundantVariables : Bool
deriving Repr, DecidableEq

/-- Text splice: keep the first i characters, insert the replacement, keep
everything from j on. -/
def spliceContent (s : String) (i j : Nat) (ins : String) : String :=
  String.mk (s.data.take i ++ ins.data ++ s.data.drop j)

/-- Re-indentation scan: every newline, together with its greedy chain of
blank-then-newline groups, is replaced by a newline plus the captured
indentation. -/
def reindentGo (ind : List Char) : Nat → List Char → List Char
  | 0, cs => cs
  | _ + 1, [] => []
  | fuel + 1, c :: rest =>
    if c = '\n' then
      match chainGroups (rest.length + 1) rest with
      | some t => '\n' :: (ind ++ reindentGo ind fuel t)
      | none => '\n' :: (ind ++ reindentGo ind fuel rest)
    else c :: reindentGo ind fuel rest

/-- Inlined-content re-indentation for the indented syntax, with the
trailing newline the source appends. -/
def reindentContent (content : String) (ind : String) : String :=
  String.mk (reindentGo ind.data (content.data.length + 1) content.data) ++ "\n"

/-- Replace-or-append into the files map, keeping insertion order as a
string-keyed JavaScript object does. -/
def setKey : FilesMap → String → SassMergeFile → FilesMap
  | [], k, v => [(k, v)]
  | (k', v') :: t, k, v => if k' = k then (k', v) :: t else (k', v') :: setKey t k v

/-- getFile: the freshly read (and rewritten/optimized) text is compared to
the cached record's native original text; an identical record is returned
as-is, otherwise a new record replaces it in the cache.  Record
construction fails when no format can be determined from the path. -/
def getFile (read : String → String) (filePath : String) (buildTime : Nat)
    (cache : FilesMap) : Except BuildError (FilesMap × SassMergeFile) :=
  let content := read filePath
  let fresh : Except BuildError (FilesMap × SassMergeFile) :=
    match SassMergeFile.make filePath content buildTime with
    | none => .error (.unknownFormat filePath)
    | some f => .ok (setKey cache filePath f, f)
  match lookupFM cache filePath with
  | none => fresh
  | some f =>
    if f.getUnprocessedContent f.originalFormat = some content then .ok (cache, f)
    else fresh

/-- Enqueue the not-yet-initiated targets of a directive list, in order;
returns the grown initiated set and the newly queued paths. -/
def enqueueImports : List String → List ImportRef → (List String × List String)
  | initiated, [] => (initiated, [])
  | initiated, d :: rest =>
    if d.filePath ∈ initiated then enqueueImports initiated rest
    else
      let (i', ns) := enqueueImports (initiated ++ [d.filePath]) rest
      (i', d.filePath :: ns)

/-- Breadth-first loader loop: pop a queued path, load its record, register
it under its path, enqueue its native-format directive targets not yet
initiated.  The source loop is bounded by the finitely many distinct paths;
the fuel models that bound. -/
def loadGo (read : String → String) :
    Nat → Nat → FilesMap → List String → List String → FilesMap →
    Except BuildError (FilesMap × FilesMap)
  | 0, _, cache, queue, _, files =>
    match queue with
    | [] => .ok (cache, files)
    | _ :: _ => .error .fuelExhausted
  | fuel' + 1, buildTime, cache, queue, initiated, files =>
    match queue with
    | [] => .ok (cache, files)
    | p :: qs =>
      match getFile read p buildTime cache with
      | .error e => .error e
      | .ok (cache', file) =>
        let localImports := file.getImports file.originalFormat
        let files' := setKey files file.path file
        let (initiated', newPaths) := enqueueImports initiated localImports
        loadGo read fuel' buildTime cache' (qs ++ newPaths) initiated' files'

/-- loadAllFiles: breadth-first from the input path; returns the updated
cache, the input record, and the per-build files map. -/
def loadAllFiles (read : String → String) (fuel buildTime : Nat) (cache : FilesMap)
    (inputFilePath : String) : Except BuildError (FilesMap × SassMergeFile × FilesMap) :=
  match loadGo read fuel buildTime cache [inputFilePath] [inputFilePath] [] with
  | .error e => .error e
  | .ok (cache', files) =>
    match lookupFM files inputFilePath with
    | some input => .ok (cache', input, files)
    | none => .error .typeError

/-- Conversion selection: every record already holding unprocessed content
for the target format is skipped; the rest are queued, recording their
paths. -/
def selectConvertable (format : String) : FilesMap → (List SassMergeFile × List String)
  | [] => ([], [])
  | (_, f) :: rest =>
    let (rs, cs) := selectConvertable format rest
    if f.hasUnprocessedContent format then (rs, cs)
    else (f :: rs, f.path :: cs)

/-- Map a record in place at a key, leaving the map unchanged when the key
is absent. -/
def updateAt : FilesMap → String → (SassMergeFile → SassMergeFile) → FilesMap
  | [], _, _ => []
  | (k, v) :: t, key, g => if k = key then (k, g v) :: t else (k, v) :: updateAt t key g

/-- Distribute converted fragments back to their records as unprocessed
content for the target format, stamped with the build marker. -/
def applyFragments (files : FilesMap) (format : String) (buildTime : Nat) :
    List (String × String) → FilesMap
  | [] => files
  | (p, frag) :: rest =>
    applyFragments (updateAt files p (fun f => f.setUnprocessedContent format frag buildTime))
      format buildTime rest

/-- prepareFilesToFormat: select the records lacking target-format content;
with none selected, return the empty path list immediately without
consulting the converter (the returned flag records whether the external
call was made).  Otherwise the converter oracle is consulted once with the
selected records' native texts and its fragments are distributed back. -/
def prepareFilesToFormat
    (convert : List (String × String) → Except Unit (List (String × String)))
    (files : FilesMap) (format : String) (buildTime : Nat) :
    Except BuildError (FilesMap × List String × Bool) :=
  let (requiredFiles, convertable) := selectConvertable format files
  if convertable.isEmpty then .ok (files, convertable, false)
  else
    match convert (requiredFiles.map
        (fun f => (f.path, (f.getUnprocessedContent f.originalFormat).getD ("")))) with
    | .error _ => .error .conversionFailed
    | .ok fragments => .ok (applyFragments files format buildTime fragments, convertable, true)

/-- One splice of the assembler loop: look the target record up (a missing
record is the explicit missing-file error of the source), assemble it
recursively, re-indent when the directive captured indentation (otherwise
append a newline), and splice into the accumulated content at the
directive's span. -/
def spliceOne (bff : SassMergeFile → FilesMap → Except BuildError (String × FilesMap))
    (inputPath : String) (st : String × FilesMap) (imp : ImportRef) :
    Except BuildError (String × FilesMap) :=
  match lookupFM st.2 imp.filePath with
  | none => .error (.missingFile imp.filePath inputPath)
  | some partFile =>
    match bff partFile st.2 with
    | .error e => .error e
    | .ok (partContent, files') =>
      let indented :=
        if imp.indentation ≠ "" then reindentContent partContent imp.indentation
        else partContent ++ "\n"
      .ok (spliceContent st.1 imp.index imp.endIndex indented, files')

/-- buildFinalFile: fail on a path already on the active chain (the error
carries the reversed chain the thrown message renders); return the cached
final text when nothing changed; otherwise splice the directives of the
target format in reverse list order (the loop of the source runs from the
last index down to zero), apply the enabled optimization passes in their
fixed order, store the result as final content stamped with the build
marker, and return it.  The record store is mirrored into the files map,
which in the source aliases the same object.  The fuel models the
unbounded recursion of the source. -/
def buildFinalFile (opts : BuildOptions) (format : String) :
    Nat → SassMergeFile → FilesMap → Nat → List String →
    Except BuildError (String × FilesMap)
  | 0, inputFile, _, _, importPath =>
    if inputFile.path ∈ importPath then
      .error (.circular ((importPath ++ [inputFile.path]).reverse))
    else .error .fuelExhausted
  | fuel' + 1, inputFile, files, buildTime, importPath =>
    if inputFile.path ∈ importPath then
      .error (.circular ((importPath ++ [inputFile.path]).reverse))
    else
        let imports := inputFile.getImports format
        match SassMergeFile.hasChanges (fuel' + 1) inputFile format files with
        | .error e => .error e
        | .ok false => .ok ((inputFile.getFinalContent format).getD (""), files)
        | .ok true =>
          match inputFile.getUnprocessedContent format with
          | none => .error .typeError
          | some content0 =>
            match imports.reverse.foldlM
                (spliceOne
                  (fun pf fs =>
                    buildFinalFile opts format fuel' pf fs buildTime
                      (importPath ++ [inputFile.path]))
                  inputFile.path)
                (content0, files) with
            | .error e => .error e
            | .ok (content1, files1) =>
              let c2 := if opts.removeUnnecessaryWhitespaces then
                  removeUnnecessaryWhitespaces content1 format else content1
              let c3 := if opts.optimizeRedundantFunctionsAndMixins then
                  removeRedundantFunctionsAndMixins c2 format else c2
              let c4 := if opts.optimizeRedundantVariables then
                  removeRedundantVariables c3 format else c3
              let c5 := if opts.removeUnnecessaryWhitespaces then
                  removeUnnecessaryWhitespaces c4 format else c4
              let inputFile' := inputFile.setFinalContent format c5 buildTime
              .ok (c5, setKey files1 inputFile.path inputFile')

/-- The private build sequence: manifest reload (the oracle flag stands for
its success), graph load, conversion, assembly.  Failures in the stages
after a completed load are annotated with the key list of the loaded files
map before rethrowing; the manifest and load stages rethrow without that
annotation. -/
def buildInternal (read : String → String)
    (convert : List (String × String) → Except Unit (List (String × String)))
    (manifestOk : Bool) (opts : BuildOptions) (target : String) (fuel buildTime : Nat)
    (cache : FilesMap) (inputFilePath : String) :
    Except (BuildError × Option (List String)) (String × FilesMap × FilesMap) :=
  if !manifestOk then .error (.manifestBroken, none)
  else
    match loadAllFiles read fuel buildTime cache inputFilePath with
    | .error e => .error (e, none)
    | .ok (cache', input, files) =>
      let laterStages : Except BuildError (String × FilesMap) :=
        match prepareFilesToFormat convert files target buildTime with
        | .error e => .error e
        | .ok (files1, _, _) => buildFinalFile opts target fuel input files1 buildTime []
      match laterStages with
      | .error e => .error (e, some (files.map Prod.fst))
      | .ok (stylesheet, files2) => .ok (stylesheet, files2, cache')

/-- The orchestrator's in-progress flag. -/
structure BuilderState where
  progress : Bool
deriving Repr, DecidableEq

/-- build: a second call while a build is in progress fails immediately
(never queued), leaving the running build's flag alone; otherwise the flag
is raised, the private build sequence runs (its outcome is the oracle
argument), and the flag is lowered again before returning or rethrowing,
on success and failure alike. -/
def builderBuild (st : BuilderState)
    (runOutcome : Except (BuildError × Option (List String)) (String × FilesMap × FilesMap)) :
    BuilderState × Except (BuildError × Option (List String)) (String × FilesMap × FilesMap) :=
  if st.progress then (st, .error (.buildInProgress, none))
  else ({ progress := false }, runOutcome)

/-! ### Path resolver

Existence checks are an oracle from absolute path to a boolean.  Path
joining is plain separator concatenation; the joined specifiers of the
claims contain no dot segments, so the source's path normalization is the
identity on them. -/

/-- The resolver's configuration lists. -/
structure ResolveOptions where
  extensions : List String
  globalDirectories : List String
  globalPrefixes : List String
deriving Repr, DecidableEq

def isAbsolutePath (s : String) : Bool :=
  s.data.head? == some '/'

def joinPath (dir name : String) : String :=
  dir ++ "/" ++ name

/-- First extension candidate existing relative to the referring directory
(absolute candidates are tested as given). -/
def findLocalFile (fsExists : String → Bool) (cwd : String) : List String → Option String
  | [] => none
  | n :: rest =>
    let a := if isAbsolutePath n then n else joinPath cwd n
    if fsExists a then some a else findLocalFile fsExists cwd rest

/-- First candidate existing inside one global directory. -/
def findInDir (fsExists : String → Bool) (d : String) : List String → Option String
  | [] => none
  | n :: rest =>
    let p := joinPath d n
    if fsExists p then some p else findInDir fsExists d rest

/-- Walk the global directories for the given candidate names. -/
def findInDirs (fsExists : String → Bool) (names : List String) : List String → Option String
  | [] => none
  | d :: rest =>
    match findInDir fsExists d names with
    | some r => some r
    | none => findInDirs fsExists names rest

/-- Walk the global prefixes: a prefix the specifier starts with is
stripped from every extension candidate, and the global directories are
searched for the stripped names. -/
def globalPrefixLoop (fsExists : String → Bool) (dirs : List String) (filePath : String)
    (fileNames : List String) : List String → Option String
  | [] => none
  | pfx :: rest =>
    if strStartsWith filePath pfx then
      match findInDirs fsExists (fileNames.map (fun n => strDrop n (strLen pfx))) dirs with
      | some r => some r
      | none => globalPrefixLoop fsExists dirs filePath fileNames rest
    else globalPrefixLoop fsExists dirs filePath fileNames rest

/-- The path search of the merge session: extension candidates against the
referring directory first, then prefix-stripped candidates in the global
directories, in configuration order; the first existing candidate wins. -/
def resolveFilePath (opts : ResolveOptions) (fsExists : String → Bool)
    (filePath cwd : String) : Option String :=
  let fileNames := opts.extensions.map (fun ext => filePath ++ ext)
  match findLocalFile fsExists cwd fileNames with
  | some r => some r
  | none => globalPrefixLoop fsExists opts.globalDirectories filePath fileNames opts.globalPrefixes

/-! ### Concrete demonstration data

A two-file graph over the oracle read function, used to evaluate the
embedding at concrete inputs: in the cyclic variant the two stylesheets
each name the other; in the linear variant the second one is a leaf. -/

/-- Placeholder record used only as the default of option projections that
are always populated in the demonstrations. -/
def dummyFile : SassMergeFile :=
  { path := "", originalFormat := ""
    css := { original := none, final := none, imports := none }
    scss := { original := none, final := none, imports := none }
    sass := { original := none, final := none, imports := none }
    buildTime := 0 }

/-- Assembly options with every optimization toggle off. -/
def demoOpts : BuildOptions :=
  { removeUnnecessaryWhitespaces := false
    optimizeRedundantFunctionsAndMixins := false
    optimizeRedundantVariables := false }

/-- Read oracle of the mutually importing pair. -/
def demoReadCyc : String → String := fun p =>
  if p = "/a.scss" then "@import \"/b.scss\";x:1;" else "@import \"/a.scss\";y:2;"

def demoFileA : SassMergeFile :=
  (SassMergeFile.make ("/a.scss") ("@import \"/b.scss\";x:1;") 1).getD dummyFile

def demoFileB : SassMergeFile :=
  (SassMergeFile.make ("/b.scss") ("@import \"/a.scss\";y:2;") 1).getD dummyFile

def demoFilesAB : FilesMap :=
  [("/a.scss", demoFileA), ("/b.scss", demoFileB)]

/-- Converter oracle that would fail if consulted; the demonstrations never
need a conversion. -/
def demoConv : List (String × String) → Except Unit (List (String × String)) :=
  fun _ => .error ()

/-- Three blocks of the same kind and name in which the first and third
have identical text and the middle one differs. -/
def mixABA : String :=
  "@mixin a\x7bx:1\x7d@mixin a\x7bx:2\x7d@mixin a\x7bx:1\x7d"

/-- The resolver configuration of the global-import demonstration. -/
def demoResolveOpts : ResolveOptions :=
  { extensions := ["", ".scss"]
    globalDirectories := ["/libs"]
    globalPrefixes := ["", "~"] }

/-- The assembler's post-splice stage: the optimization pipeline in its
fixed order, then the final-content store mirrored into the files map. -/
def postAssemble (opts : BuildOptions) (format : String) (inputFile : SassMergeFile)
    (buildTime : Nat) (st : String × FilesMap) : String × FilesMap :=
  let c2 := if opts.removeUnnecessaryWhitespaces then
      removeUnnecessaryWhitespaces st.1 format else st.1
  let c3 := if opts.optimizeRedundantFunctionsAndMixins then
      removeRedundantFunctionsAndMixins c2 format else c2
  let c4 := if opts.optimizeRedundantVariables then
      removeRedundantVariables c3 format else c3
  let c5 := if opts.removeUnnecessaryWhitespaces then
      removeUnnecessaryWhitespaces c4 format else c4
  (c5, setKey st.2 inputFile.path (inputFile.setFinalContent format c5 buildTime))

/-- Leaf variant of the second stylesheet: no directives. -/
def demoFileBLeaf : SassMergeFile :=
  (SassMergeFile.make ("/b.scss") ("y:2;") 1).getD dummyFile

/-- Linear two-file map: the first stylesheet imports the leaf. -/
def demoFilesLin : FilesMap :=
  [("/a.scss", demoFileA), ("/b.scss", demoFileBLeaf)]

/-- Post-build cache records of the linear demonstration: the originals of
the first build with stored final texts and the first build's marker. -/
def demoFileABuilt : SassMergeFile :=
  ((SassMergeFile.make ("/a.scss") ("@import \"/b.scss\";x:1;") 1).getD
    dummyFile).setFinalContent ("scss") ("y:2;\nx:1;") 1

def demoFileBBuilt : SassMergeFile :=
  ((SassMergeFile.make ("/b.scss") ("y:2;") 1).getD dummyFile).setFinalContent
    ("scss") ("y:2;") 1

def demoCacheBuilt : FilesMap :=
  [("/a.scss", demoFileABuilt), ("/b.scss", demoFileBBuilt)]

/-- Read oracle of the linear demonstration, unchanged since the first
build. -/
def demoReadLin : String → String := fun p =>
  if p = "/a.scss" then "@import \"/b.scss\";x:1;" else "y:2;"

/-- Rank witness for the linear demonstration's acyclicity. -/
def demoRank : String → Nat := fun p =>
  if p = "/a.scss" then 1 else 0


/-! ### Helper lemmas on the association maps -/

theorem lookupFM_mem {m : FilesMap} {k : String} {v : SassMergeFile}
    (h : lookupFM m k = some v) : (k, v) ∈ m := by
  induction m with
  | nil => simp [lookupFM] at h
  | cons hd t ih =>
    obtain ⟨k', v'⟩ := hd
    by_cases hk : k' = k
    · subst hk
      simp [lookupFM] at h
      simp [h]
    · simp [lookupFM, hk] at h
      exact List.mem_cons_of_mem _ (ih h)

theorem assoc_unique {m : FilesMap} (hnd : (m.map Prod.fst).Nodup) :
    ∀ {k : String} {a b : SassMergeFile}, (k, a) ∈ m → (k, b) ∈ m → a = b := by
  induction m with
  | nil => intro k a b ha; simp at ha
  | cons hd t ih =>
    intro k a b ha hb
    obtain ⟨k0, v0⟩ := hd
    simp only [List.map_cons, List.nodup_cons] at hnd
    rcases List.mem_cons.mp ha with ha0 | ha1 <;> rcases List.mem_cons.mp hb with hb0 | hb1
    · cases ha0; cases hb0; rfl
    · cases ha0
      exact absurd (List.mem_map_of_mem Prod.fst hb1) hnd.1
    · cases hb0
      exact absurd (List.mem_map_of_mem Prod.fst ha1) hnd.1
    · exact ih hnd.2 ha1 hb1

theorem make_buildTime {p c : String} {t : Nat} {g : SassMergeFile}
    (h : SassMergeFile.make p c t = some g) : g.buildTime = t := by
  unfold SassMergeFile.make at h
  cases hd : determineFileFormat p with
  | none => rw [hd] at h; cases h
  | some fmt =>
    rw [hd] at h
    simp only [Option.some.injEq] at h
    subst h
    simp [SassMergeFile.setUnprocessedContent]

/-! ### Claims -/

/-- C1: whenever the current record's path already occurs in the active
chain, buildFinalFile fails with the circular-dependency error, whose
carried path list (the rendered message joins it) is the chain extended by
the current path, reversed, and names every path of the chain; in
particular, for the two mutually importing stylesheets, assembling the
first one from the empty chain fails with the error naming both paths. -/
theorem c1_circular_import :
    (∀ (opts : BuildOptions) (format : String) (fuel : Nat) (inputFile : SassMergeFile)
        (files : FilesMap) (buildTime : Nat) (importPath : List String),
      inputFile.path ∈ importPath →
        buildFinalFile opts format fuel inputFile files buildTime importPath =
          .error (.circular ((importPath ++ [inputFile.path]).reverse)) ∧
        ∀ q ∈ importPath ++ [inputFile.path],
          q ∈ (importPath ++ [inputFile.path]).reverse) ∧
    (buildFinalFile demoOpts ("scss") 5 demoFileA demoFilesAB 1 [] =
        .error (.circular ["/a.scss", "/b.scss", "/a.scss"]) ∧
      ("/a.scss" : String) ∈ ["/a.scss", "/b.scss", "/a.scss"] ∧
      ("/b.scss" : String) ∈ (["/a.scss", "/b.scss", "/a.scss"] : List String)) := by
  constructor
  · intro opts format fuel inputFile files buildTime importPath h
    constructor
    · cases fuel with
      | zero => simp [buildFinalFile, h]
      | succ n => simp [buildFinalFile, h]
    · intro q hq
      exact List.mem_reverse.mpr hq
  · exact ⟨by decide, by decide, by decide⟩

/-- Witness for C1: the general branch applied to a concrete chain already
containing the current path. -/
theorem c1_circular_import_witness :
    demoFileB.path ∈ ["/x.scss", "/b.scss"] ∧
    (buildFinalFile demoOpts ("scss") 2 demoFileB demoFilesAB 1 ["/x.scss", "/b.scss"] =
        .error (.circular ((["/x.scss", "/b.scss"] ++ [demoFileB.path]).reverse)) ∧
      ∀ q ∈ ["/x.scss", "/b.scss"] ++ [demoFileB.path],
        q ∈ (["/x.scss", "/b.scss"] ++ [demoFileB.path]).reverse) :=
  ⟨by decide,
    (c1_circular_import).1 demoOpts ("scss") 2 demoFileB demoFilesAB 1 ["/x.scss", "/b.scss"]
      (by decide)⟩

/-- C3: a cached record whose native original text is byte-identical to the
freshly read text is returned as the very same record with the cache left
unchanged (so its final content, directive lists and old marker are all
preserved); otherwise, and likewise when the path has no cached record, a
newly constructed record stamped with the current marker replaces it in
the cache. -/
theorem c3_getFile_cache_reuse :
    (∀ (read : String → String) (filePath : String) (buildTime : Nat) (cache : FilesMap)
        (f : SassMergeFile),
      lookupFM cache filePath = some f →
        (f.getUnprocessedContent f.originalFormat = some (read filePath) →
          getFile read filePath buildTime cache = .ok (cache, f)) ∧
        (f.getUnprocessedContent f.originalFormat ≠ some (read filePath) →
          ∀ g, SassMergeFile.make filePath (read filePath) buildTime = some g →
            getFile read filePath buildTime cache = .ok (setKey cache filePath g, g) ∧
            g.buildTime = buildTime)) ∧
    (∀ (read : String → String) (filePath : String) (buildTime : Nat) (cache : FilesMap),
      lookupFM cache filePath = none →
        ∀ g, SassMergeFile.make filePath (read filePath) buildTime = some g →
          getFile read filePath buildTime cache = .ok (setKey cache filePath g, g) ∧
          g.buildTime = buildTime) := by
  constructor
  · intro read filePath buildTime cache f hl
    constructor
    · intro hsame
      simp [getFile, hl, hsame]
    · intro hdiff g hg
      refine ⟨?_, make_buildTime hg⟩
      simp [getFile, hl, hdiff, hg]
  · intro read filePath buildTime cache hl g hg
    refine ⟨?_, make_buildTime hg⟩
    simp [getFile, hl, hg]

/-- Witness for C3: reuse branch on a concrete cache holding the identical
record. -/
theorem c3_getFile_cache_reuse_witness :
    lookupFM demoFilesAB ("/a.scss") = some demoFileA ∧
    demoFileA.getUnprocessedContent demoFileA.originalFormat = some (demoReadCyc ("/a.scss")) ∧
    getFile demoReadCyc ("/a.scss") 2 demoFilesAB = .ok (demoFilesAB, demoFileA) :=
  ⟨by decide, by decide,
    ((c3_getFile_cache_reuse).1 demoReadCyc ("/a.scss") 2 demoFilesAB demoFileA (by decide)).1
      (by decide)⟩

/-- C5: a build call on an orchestrator already in progress fails
immediately with the single-build error, leaving the running build's state
alone and never queueing the caller; a call on an idle orchestrator runs
the build, returns its outcome unchanged (success or failure alike), and
lowers the flag before returning, so a subsequent call is admitted and
returns its own outcome. -/
theorem c5_single_build :
    ∀ (st : BuilderState)
      (r r2 : Except (BuildError × Option (List String)) (String × FilesMap × FilesMap)),
      (st.progress = true →
        builderBuild st r = (st, .error (.buildInProgress, none))) ∧
      (st.progress = false →
        (builderBuild st r).1.progress = false ∧
        (builderBuild st r).2 = r ∧
        builderBuild (builderBuild st r).1 r2 = ({ progress := false }, r2)) := by
  intro st r r2
  constructor
  · intro h; simp [builderBuild, h]
  · intro h; simp [builderBuild, h]

/-- Witness for C5: an idle orchestrator around a failing outcome. -/
theorem c5_single_build_witness :
    (BuilderState.mk false).progress = false ∧
    ((builderBuild (BuilderState.mk false) (.error (.manifestBroken, none))).1.progress = false ∧
      (builderBuild (BuilderState.mk false) (.error (.manifestBroken, none))).2 =
        .error (.manifestBroken, none) ∧
      builderBuild (builderBuild (BuilderState.mk false) (.error (.manifestBroken, none))).1
          (.ok ("", [], [])) =
        ({ progress := false }, .ok ("", [], []))) :=
  ⟨rfl,
    (c5_single_build (BuilderState.mk false) (.error (.manifestBroken, none))
      (.ok ("", [], []))).2 rfl⟩

/-- Selection never picks a path whose records all hold unprocessed content
for the target format. -/
theorem selectConvertable_not_mem {fmt x : String} :
    ∀ (files : FilesMap),
      (∀ q g, (q, g) ∈ files → g.hasUnprocessedContent fmt = false → g.path ≠ x) →
      x ∉ (selectConvertable fmt files).2 := by
  intro files
  induction files with
  | nil => intro _; simp [selectConvertable]
  | cons hd t ih =>
    intro h
    obtain ⟨q, g⟩ := hd
    have ht := ih (fun q' g' hm => h q' g' (List.mem_cons_of_mem _ hm))
    by_cases hu : g.hasUnprocessedContent fmt
    · simpa [selectConvertable, hu] using ht
    · have hne := h q g (List.mem_cons_self _ _) (by simpa using hu)
      simp only [selectConvertable, hu]
      intro hx
      rcases List.mem_cons.mp (by simpa using hx) with h1 | h2
      · exact hne h1.symm
      · exact ht h2

/-- C6: a record created for a path of the plain format stores its text
verbatim in the css and scss original and final slots and pins the scss
directive list to the empty list; consequently it has unprocessed content
for the scss target, and conversion selection over any well-keyed files
map never picks its path for the external call. -/
theorem c6_plain_mirrored :
    ∀ (path content : String) (t : Nat) (f : SassMergeFile),
      determineFileFormat path = some ("css") →
      SassMergeFile.make path content t = some f →
      (f.css.original = some content ∧ f.css.final = some content ∧
        f.scss.original = some content ∧ f.scss.final = some content ∧
        f.scss.imports = some [] ∧
        f.hasUnprocessedContent ("scss") = true) ∧
      (∀ files : FilesMap,
        (∀ q g, (q, g) ∈ files → g.path = q) →
        (files.map Prod.fst).Nodup →
        (f.path, f) ∈ files →
        f.path ∉ (selectConvertable ("scss") files).2) := by
  intro path content t f hfmt hmake
  simp only [SassMergeFile.make, hfmt] at hmake
  simp only [Option.some.injEq] at hmake
  have hslots : f.css.original = some content ∧ f.css.final = some content ∧
      f.scss.original = some content ∧ f.scss.final = some content ∧
      f.scss.imports = some [] := by
    subst hmake
    simp [SassMergeFile.setUnprocessedContent]
  have hunproc : f.hasUnprocessedContent ("scss") = true := by
    simp [SassMergeFile.hasUnprocessedContent, SassMergeFile.contentFor, hslots.2.2.1]
  refine ⟨⟨hslots.1, hslots.2.1, hslots.2.2.1, hslots.2.2.2.1, hslots.2.2.2.2, hunproc⟩, ?_⟩
  intro files hkeys hnd hmem
  refine selectConvertable_not_mem files ?_
  intro q g hm hug hpath
  have hq : g.path = q := hkeys q g hm
  have : g = f := assoc_unique hnd (by rw [← hq] at hm; rw [hpath] at hm; exact hm) hmem
  rw [this, hunproc] at hug
  cases hug

/-- Witness for C6: a concrete plain-format record inside a two-record map. -/
theorem c6_plain_mirrored_witness :
    determineFileFormat ("/c.css") = some ("css") ∧
    SassMergeFile.make ("/c.css") ("p\x7bq:1\x7d") 1 =
      some ((SassMergeFile.make ("/c.css") ("p\x7bq:1\x7d") 1).getD dummyFile) ∧
    ((SassMergeFile.make ("/c.css") ("p\x7bq:1\x7d") 1).getD dummyFile).path ∉
      (selectConvertable ("scss")
        [("/c.css", (SassMergeFile.make ("/c.css") ("p\x7bq:1\x7d") 1).getD dummyFile),
         ("/b.scss", demoFileB)]).2 :=
  ⟨by decide, by decide,
    (c6_plain_mirrored ("/c.css") ("p\x7bq:1\x7d") 1
        ((SassMergeFile.make ("/c.css") ("p\x7bq:1\x7d") 1).getD dummyFile)
        (by decide) (by decide)).2
      [("/c.css", (SassMergeFile.make ("/c.css") ("p\x7bq:1\x7d") 1).getD dummyFile),
       ("/b.scss", demoFileB)]
      (by
        intro q g hm
        simp only [List.mem_cons, List.not_mem_nil, or_false] at hm
        rcases hm with h | h <;>
          (rw [Prod.mk.injEq] at h; obtain ⟨h1, h2⟩ := h; subst h1; subst h2; decide))
      (by decide) (by decide)⟩

/-- C10: format detection returns the first dot-anchored occurrence of one
of the three syntax names, case-insensitively and anywhere in the path,
cased as written: a backup suffix still reads as scss, a directory
component decides files under it, and an upper-case extension yields an
upper-case format string under which record construction stores no content
in any of the three slots; construction fails exactly when no occurrence
exists. -/
theorem c10_format_detection :
    determineFileFormat ("theme.scss.bak") = some ("scss") ∧
    determineFileFormat ("dir.css/x.scss") = some ("css") ∧
    determineFileFormat ("a.CSS") = some ("CSS") ∧
    ((SassMergeFile.make ("a.CSS") ("x") 1).map
      (fun f => (f.css.original, f.scss.original, f.sass.original)) =
        some (none, none, none)) ∧
    (∀ (p c : String) (t : Nat),
      (SassMergeFile.make p c t).isNone = (determineFileFormat p).isNone) := by
  refine ⟨by decide, by decide, by decide, by decide, ?_⟩
  intro p c t
  cases hd : determineFileFormat p with
  | none => simp [SassMergeFile.make, hd]
  | some fmt => simp [SassMergeFile.make, hd]

/-- C8 counterexample: the third block's name and full text exactly match
the first block, yet the pass keeps all three blocks verbatim, because a
kept block overwrites its name's stored entry, so the comparison is only
against the most recently seen block, not any earlier one.  The deletion
the claim requires would have produced the two-block string. -/
theorem c8_counterexample :
    removeRedundantFunctionsAndMixins mixABA ("scss") = mixABA ∧
    mixABA ≠ ("@mixin a\x7bx:1\x7d@mixin a\x7bx:2\x7d") :=
  ⟨by decide, by decide⟩

/-- C8 amended: a later block is deleted exactly when its kind, name and
full text match the most recently seen block of that kind and name (each
kept block overwrites the stored entry); the first occurrence is always
kept.  The adjacent identical pair keeps only the first occurrence
verbatim, while in the sequence block A, different-bodied block B, block A
again, the third block survives because the stored entry then holds B. -/
theorem c8_last_occurrence_dedup :
    removeRedundantFunctionsAndMixins ("@mixin a\x7bx:1\x7d\n@mixin a\x7bx:1\x7d") ("scss") =
      ("@mixin a\x7bx:1\x7d\n") ∧
    removeRedundantFunctionsAndMixins mixABA ("scss") = mixABA :=
  ⟨by decide, by decide⟩

/-- C7: with extension candidates empty and .scss, global prefixes empty
and tilde, and one library directory, a tilde specifier with no local
candidate resolves to the library file carrying the extension: the empty
prefix round finds nothing because the tilde is not stripped there, and
the tilde round strips it and finds the extension-augmented name. -/
theorem c7_tilde_library_resolution :
    ∀ (fsExists : String → Bool) (cwd : String),
      fsExists (joinPath cwd ("~foo")) = false →
      fsExists (joinPath cwd ("~foo.scss")) = false →
      fsExists (joinPath ("/libs") ("~foo")) = false →
      fsExists (joinPath ("/libs") ("~foo.scss")) = false →
      fsExists (joinPath ("/libs") ("foo")) = false →
      fsExists (joinPath ("/libs") ("foo.scss")) = true →
      resolveFilePath demoResolveOpts fsExists ("~foo") cwd =
        some (joinPath ("/libs") ("foo.scss")) := by
  intro fsExists cwd h1 h2 h3 h4 h5 h6
  have e0 : (("~foo" : String) ++ "") = "~foo" := rfl
  have e1 : (("~foo" : String) ++ ".scss") = "~foo.scss" := rfl
  unfold resolveFilePath
  simp only [demoResolveOpts, List.map_cons, List.map_nil, e0, e1]
  have hl : findLocalFile fsExists cwd ["~foo", "~foo.scss"] = none := by
    simp [findLocalFile, show isAbsolutePath ("~foo") = false from rfl,
      show isAbsolutePath ("~foo.scss") = false from rfl, h1, h2]
  rw [hl]
  simp only [globalPrefixLoop, findInDirs, findInDir,
    show strStartsWith ("~foo") ("") = true from rfl,
    show strStartsWith ("~foo") ("~") = true from rfl,
    show strDrop ("~foo") (strLen ("")) = "~foo" from rfl,
    show strDrop ("~foo.scss") (strLen ("")) = "~foo.scss" from rfl,
    show strDrop ("~foo") (strLen ("~")) = "foo" from rfl,
    show strDrop ("~foo.scss") (strLen ("~")) = "foo.scss" from rfl,
    List.map_cons, List.map_nil]
  simp [h3, h4, h5, h6]

/-- Witness for C7: a filesystem oracle holding exactly the library file. -/
theorem c7_tilde_library_resolution_witness :
    (fun p => decide (p = joinPath ("/libs") ("foo.scss"))) (joinPath ("/proj") ("~foo")) = false ∧
    resolveFilePath demoResolveOpts
        (fun p => decide (p = joinPath ("/libs") ("foo.scss"))) ("~foo") ("/proj") =
      some (joinPath ("/libs") ("foo.scss")) :=
  ⟨by decide,
    c7_tilde_library_resolution (fun p => decide (p = joinPath ("/libs") ("foo.scss"))) ("/proj")
      (by decide) (by decide) (by decide) (by decide) (by decide) (by decide)⟩

/-! ### Span ordering of the scanners (towards C4) -/

theorem scanAll_succ {α : Type} (m : Bool → List Char → Option (α × List Char))
    (n : Nat) (ls : Bool) (pos : Nat) (cs : List Char) :
    scanAll m (n + 1) ls pos cs = scanAllStep m (scanAll m n) ls pos cs := rfl

theorem scanAll_bounds {α : Type} (m : Bool → List Char → Option (α × List Char)) :
    ∀ (fuel : Nat) (ls : Bool) (pos : Nat) (cs : List Char),
      (∀ x ∈ scanAll m fuel ls pos cs, pos ≤ x.1) ∧
      List.Pairwise (fun x y => x.1 + max x.2.1 1 ≤ y.1) (scanAll m fuel ls pos cs) := by
  intro fuel
  induction fuel with
  | zero => intro ls pos cs; simp [scanAll]
  | succ n ih =>
    intro ls pos cs
    rw [scanAll_succ]
    unfold scanAllStep
    cases hm : m ls cs with
    | none =>
      cases cs with
      | nil => simp
      | cons c t =>
        obtain ⟨ih1, ih2⟩ := ih (c = '\n') (pos + 1) t
        exact ⟨fun x hx => Nat.le_trans (Nat.le_succ pos) (ih1 x hx), ih2⟩
    | some ar =>
      obtain ⟨a, rest⟩ := ar
      by_cases hlen : cs.length - rest.length = 0
      · simp only [hlen, if_pos rfl]
        cases cs with
        | nil =>
          constructor
          · intro x hx; simp at hx; simp [hx]
          · simp
        | cons c t =>
          obtain ⟨ih1, ih2⟩ := ih (c = '\n') (pos + 1) t
          constructor
          · intro x hx
            rcases List.mem_cons.mp hx with h | h
            · simp [h]
            · exact Nat.le_trans (Nat.le_succ pos) (ih1 x h)
          · refine List.pairwise_cons.mpr ⟨?_, ih2⟩
            intro y hy
            have := ih1 y hy
            simp only [hlen]
            omega
      · simp only [if_neg hlen]
        obtain ⟨ih1, ih2⟩ :=
          ih (((cs.take (cs.length - rest.length)).getLast? == some '\n'))
            (pos + (cs.length - rest.length)) rest
        constructor
        · intro x hx
          rcases List.mem_cons.mp hx with h | h
          · simp [h]
          · exact Nat.le_trans (Nat.le_add_right pos _) (ih1 x h)
        · refine List.pairwise_cons.mpr ⟨?_, ih2⟩
          intro y hy
          have := ih1 y hy
          dsimp only
          rw [Nat.max_eq_left (Nat.one_le_iff_ne_zero.mpr hlen)]
          omega

theorem scanAll_payload {α : Type} {m : Bool → List Char → Option (α × List Char)}
    {P : α → Nat → Prop}
    (hm : ∀ ls cs a rest, m ls cs = some (a, rest) → P a (cs.length - rest.length)) :
    ∀ (fuel : Nat) (ls : Bool) (pos : Nat) (cs : List Char),
      ∀ x ∈ scanAll m fuel ls pos cs, P x.2.2 x.2.1 := by
  intro fuel
  induction fuel with
  | zero => intro ls pos cs x hx; simp [scanAll] at hx
  | succ n ih =>
    intro ls pos cs x hx
    rw [scanAll_succ] at hx
    unfold scanAllStep at hx
    cases hme : m ls cs with
    | none =>
      rw [hme] at hx
      dsimp only at hx
      cases cs with
      | nil => simp at hx
      | cons c t => exact ih (c = '\n') (pos + 1) t x hx
    | some ar =>
      obtain ⟨a, rest⟩ := ar
      rw [hme] at hx
      dsimp only at hx
      have hp := hm ls cs a rest hme
      by_cases hlen : cs.length - rest.length = 0
      · rw [if_pos hlen] at hx
        cases cs with
        | nil =>
          dsimp only at hx
          simp only [List.mem_singleton] at hx
          subst hx
          exact hp
        | cons c t =>
          dsimp only at hx
          rcases List.mem_cons.mp hx with h | h
          · subst h; exact hp
          · exact ih (c = '\n') (pos + 1) t x h
      · rw [if_neg hlen] at hx
        rcases List.mem_cons.mp hx with h | h
        · subst h; exact hp
        · exact ih _ _ rest x h

theorem eatLit_length : ∀ (l cs r : List Char), eatLit l cs = some r →
    r.length + l.length = cs.length := by
  intro l
  induction l with
  | nil => intro cs r h; simp [eatLit] at h; simp [h]
  | cons x xs ih =>
    intro cs r h
    cases cs with
    | nil => simp [eatLit] at h
    | cons c t =>
      simp only [eatLit] at h
      split at h
      · have := ih t r h
        simp only [List.length_cons]
        omega
      · cases h

theorem eatWs1_length {cs r : List Char} (h : eatWs1 cs = some r) : r.length < cs.length := by
  cases cs with
  | nil => simp [eatWs1] at h
  | cons c t =>
    simp only [eatWs1] at h
    split at h
    · simp only [Option.some.injEq] at h
      subst h
      have := (List.dropWhile_sublist (l := t) isWsChar).length_le
      simp only [List.length_cons]
      omega
    · cases h

theorem quotedBody_succ_cons (q : Char) (fuel : Nat) (acc : List Char) (c : Char)
    (t : List Char) :
    quotedBody q (fuel + 1) acc (c :: t) =
      if c = q then
        if acc.isEmpty then none else some (String.mk acc.reverse, t)
      else if c = '\\' then
        match t with
        | [] => none
        | d :: t' =>
          if d = '\n' then quotedBody q fuel (c :: acc) t else quotedBody q fuel (d :: acc) t'
      else quotedBody q fuel (c :: acc) t := rfl

theorem quotedBody_length : ∀ (fuel : Nat) (q : Char) (acc cs : List Char) (v : String)
    (rest : List Char), quotedBody q fuel acc cs = some (v, rest) → rest.length < cs.length := by
  intro fuel
  induction fuel with
  | zero => intro q acc cs v rest h; simp [quotedBody] at h
  | succ n ih =>
    intro q acc cs v rest h
    cases cs with
    | nil => simp [quotedBody] at h
    | cons c t =>
      rw [quotedBody_succ_cons] at h
      by_cases h1 : c = q
      · rw [if_pos h1] at h
        by_cases h2 : acc.isEmpty
        · rw [if_pos h2] at h; cases h
        · rw [if_neg h2] at h
          simp only [Option.some.injEq, Prod.mk.injEq] at h
          rw [← h.2]
          simp
      · rw [if_neg h1] at h
        by_cases h2 : c = '\\'
        · rw [if_pos h2] at h
          split at h
          · cases h
          · rename_i d t'
            split at h
            · have := ih q (c :: acc) (d :: t') v rest h
              simp only [List.length_cons] at this ⊢
              omega
            · have := ih q (d :: acc) t' v rest h
              simp only [List.length_cons]
              omega
        · rw [if_neg h2] at h
          have := ih q (c :: acc) t v rest h
          simp only [List.length_cons]
          omega

theorem eatScssTail_length {cs r : List Char} (h : eatScssTail cs = some r) :
    r.length ≤ cs.length := by
  have hd := (List.dropWhile_sublist (l := cs) isWsChar).length_le
  unfold eatScssTail at h
  cases h2 : cs.dropWhile isWsChar with
  | nil =>
    rw [h2] at h
    dsimp only at h
    simp only [Option.some.injEq] at h
    rw [← h]
    simp
  | cons c t =>
    rw [h2] at h
    dsimp only at h
    by_cases hc : (c = ';' || c = '}') = true
    · rw [if_pos hc] at h
      simp only [Option.some.injEq] at h
      subst h
      rw [h2] at hd
      simp only [List.length_cons] at hd
      omega
    · rw [if_neg hc] at h
      cases h

theorem eatSassTerm_length {cs r : List Char} (h : eatSassTerm cs = some r) :
    r.length ≤ cs.length := by
  unfold eatSassTerm at h
  split at h
  · simp only [Option.some.injEq] at h; subst h; simp
  · split at h
    · simp only [Option.some.injEq] at h
      subst h
      rw [List.length_drop]
      omega
    · cases h

theorem litLoop_length : ∀ (cs acc : List Char) (v : String) (rest : List Char),
    litLoop acc cs = some (v, rest) →
    rest.length ≤ cs.length ∧ (acc = [] → rest.length < cs.length) := by
  intro cs
  induction cs with
  | nil =>
    intro acc v rest h
    rw [litLoop] at h
    cases hterm : (if acc.isEmpty then none else eatSassTerm ([] : List Char)) with
    | none => rw [hterm] at h; simp at h
    | some r =>
      rw [hterm] at h
      simp only [Option.some.injEq, Prod.mk.injEq] at h
      have hr : r.length ≤ 0 := by
        by_cases ha : acc.isEmpty
        · rw [if_pos ha] at hterm; cases hterm
        · rw [if_neg ha] at hterm
          simpa using eatSassTerm_length hterm
      refine ⟨by rw [← h.2]; simpa using hr, ?_⟩
      intro hacc
      exfalso
      subst hacc
      simp at hterm
  | cons c t ih =>
    intro acc v rest h
    rw [litLoop] at h
    cases hterm : (if acc.isEmpty then none else eatSassTerm (c :: t)) with
    | some r =>
      rw [hterm] at h
      simp only [Option.some.injEq, Prod.mk.injEq] at h
      have ha : ¬ acc.isEmpty = true := by
        intro hh; rw [if_pos hh] at hterm; cases hterm
      have hr := eatSassTerm_length
        (show eatSassTerm (c :: t) = some r by rwa [if_neg ha] at hterm)
      refine ⟨by rw [← h.2]; exact hr, ?_⟩
      intro hacc
      exact absurd (by simp [hacc]) ha
    | none =>
      rw [hterm] at h
      by_cases hc : (c = '\n' || c = '\r') = true
      · simp [hc] at h
      · have hc' : (c = '\n' || c = '\r') = false := by
          simpa using hc
        simp only [hc', Bool.false_eq_true, if_false] at h
        have := (ih (c :: acc) v rest h).1
        refine ⟨?_, ?_⟩ <;> (simp only [List.length_cons]; omega)

theorem matchImportScss_length {cs : List Char} {v : String} {rest : List Char}
    (h : matchImportScss cs = some (v, rest)) : rest.length < cs.length := by
  unfold matchImportScss at h
  cases h1 : eatLit (String.data ("@import")) cs with
  | none => rw [h1] at h; simp at h
  | some r1 =>
    rw [h1] at h
    dsimp only at h
    cases h2 : eatWs1 r1 with
    | none => rw [h2] at h; simp at h
    | some r2 =>
      rw [h2] at h
      dsimp only at h
      cases r2 with
      | nil => simp at h
      | cons q r3 =>
        dsimp only at h
        by_cases hq : (q = squoteChar || q = dquoteChar) = true
        · rw [if_pos hq] at h
          cases h3 : quotedBody q (r3.length + 1) [] r3 with
          | none => rw [h3] at h; simp at h
          | some p =>
            obtain ⟨value, r4⟩ := p
            rw [h3] at h
            dsimp only at h
            cases h4 : eatScssTail r4 with
            | none => rw [h4] at h; simp at h
            | some r5 =>
              rw [h4] at h
              simp only [Option.some.injEq, Prod.mk.injEq] at h
              obtain ⟨-, hr⟩ := h
              subst hr
              have l1 := eatLit_length _ _ _ h1
              rw [show (String.data ("@import")).length = 7 from rfl] at l1
              have l2 := eatWs1_length h2
              have l3 := quotedBody_length _ q [] r3 value r4 h3
              have l4 := eatScssTail_length h4
              simp only [List.length_cons] at l2
              omega
        · rw [if_neg hq] at h; cases h

theorem sassPathPart_length {cs : List Char} {v : String} {rest : List Char}
    (h : sassPathPart cs = some (v, rest)) : rest.length < cs.length := by
  cases cs with
  | nil => simp [sassPathPart] at h
  | cons q r3 =>
    unfold sassPathPart at h
    dsimp only at h
    by_cases hq : (q = squoteChar || q = dquoteChar) = true
    · rw [if_pos hq] at h
      cases h3 : quotedBody q (r3.length + 1) [] r3 with
      | none =>
        rw [h3] at h
        dsimp only at h
        exact (litLoop_length (q :: r3) [] v rest h).2 rfl
      | some p =>
        obtain ⟨value, r4⟩ := p
        rw [h3] at h
        dsimp only at h
        cases h4 : eatSassTerm r4 with
        | none =>
          rw [h4] at h
          dsimp only at h
          exact (litLoop_length (q :: r3) [] v rest h).2 rfl
        | some r5 =>
          rw [h4] at h
          simp only [Option.some.injEq, Prod.mk.injEq] at h
          obtain ⟨-, hr⟩ := h
          subst hr
          have l3 := quotedBody_length _ q [] r3 value r4 h3
          have l4 := eatSassTerm_length h4
          simp only [List.length_cons]
          omega
    · rw [if_neg hq] at h
      exact (litLoop_length (q :: r3) [] v rest h).2 rfl

theorem matchImportSassBody_len {nlLen : Nat} {cs : List Char} {d : Nat} {v ind : String}
    {rest : List Char}
    (h : matchImportSassBody nlLen cs = some ((d, v, ind), rest)) :
    rest.length + d + 8 ≤ cs.length + 2 * nlLen := by
  unfold matchImportSassBody at h
  cases h1 : eatLit (String.data ("@import")) (cs.dropWhile isBlankChar) with
  | none => rw [h1] at h; simp at h
  | some r1 =>
    rw [h1] at h
    dsimp only at h
    cases h2 : eatWs1 r1 with
    | none => rw [h2] at h; simp at h
    | some r2 =>
      rw [h2] at h
      dsimp only at h
      cases h3 : sassPathPart r2 with
      | none => rw [h3] at h; simp at h
      | some p =>
        obtain ⟨value, r5⟩ := p
        rw [h3] at h
        simp only [Option.some.injEq, Prod.mk.injEq] at h
        obtain ⟨⟨hd, -, -⟩, hrest⟩ := h
        subst hrest
        have l1 := eatLit_length _ _ _ h1
        rw [show (String.data ("@import")).length = 7 from rfl] at l1
        have l2 := eatWs1_length h2
        have l3 := sassPathPart_length h3
        have lb : (cs.takeWhile isBlankChar).length + (cs.dropWhile isBlankChar).length
            = cs.length := by
          rw [← List.length_append, List.takeWhile_append_dropWhile]
        by_cases hn : nlLen = 0
        · rw [if_pos hn] at hd
          subst hn
          omega
        · rw [if_neg hn] at hd
          omega

theorem matchImportSass_len {ls : Bool} {cs : List Char} {d : Nat} {v ind : String}
    {rest : List Char}
    (h : matchImportSass ls cs = some ((d, v, ind), rest)) :
    rest.length + d < cs.length := by
  unfold matchImportSass at h
  cases hA : (if ls then matchImportSassBody 0 cs else none) with
  | some r =>
    rw [hA] at h
    dsimp only at h
    simp only [Option.some.injEq] at h
    subst h
    by_cases hls : ls
    · rw [if_pos hls] at hA
      have := matchImportSassBody_len hA
      omega
    · rw [if_neg hls] at hA; cases hA
  | none =>
    rw [hA] at h
    dsimp only at h
    cases cs with
    | nil => simp at h
    | cons c t =>
      dsimp only at h
      by_cases hc : c = '\n'
      · rw [if_pos hc] at h
        have := matchImportSassBody_len h
        simp only [List.length_cons]
        omega
      · rw [if_neg hc] at h; cases h

/-- Spans of the scss scanner: every directive's index lies strictly below
its end, and the spans are ordered: each one ends at or before the next
begins. -/
theorem scanImportsScss_spans (content : String) :
    (∀ r ∈ scanImportsScss content, r.index < r.endIndex) ∧
    List.Pairwise (fun a b => a.endIndex ≤ b.index) (scanImportsScss content) := by
  constructor
  · intro r hr
    unfold scanImportsScss at hr
    rw [List.mem_filter] at hr
    obtain ⟨hm, -⟩ := hr
    rw [List.mem_map] at hm
    obtain ⟨x, hx, rfl⟩ := hm
    have hp := scanAll_payload (m := fun _ cs => matchImportScss cs)
      (P := fun _ len => 0 < len)
      (fun ls cs a rest hm2 => by
        have := matchImportScss_length hm2
        omega)
      (content.data.length + 1) true 0 content.data x hx
    dsimp only
    omega
  · unfold scanImportsScss
    apply List.Pairwise.filter
    rw [List.pairwise_map]
    refine List.Pairwise.imp ?_
      ((scanAll_bounds (fun _ cs => matchImportScss cs)
        (content.data.length + 1) true 0 content.data).2)
    intro a b hab
    dsimp only
    have := Nat.le_max_left a.2.1 1
    omega

/-- Spans of the sass scanner: same ordering statement. -/
theorem scanImportsSass_spans (content : String) :
    (∀ r ∈ scanImportsSass content, r.index < r.endIndex) ∧
    List.Pairwise (fun a b => a.endIndex ≤ b.index) (scanImportsSass content) := by
  constructor
  · intro r hr
    unfold scanImportsSass at hr
    rw [List.mem_filter] at hr
    obtain ⟨hm, -⟩ := hr
    rw [List.mem_map] at hm
    obtain ⟨x, hx, rfl⟩ := hm
    have hp := scanAll_payload (m := matchImportSass)
      (P := fun a len => a.1 < len)
      (fun ls cs a rest hm2 => by
        obtain ⟨d, v, ind⟩ := a
        have := matchImportSass_len hm2
        dsimp only
        omega)
      (content.data.length + 1) true 0 content.data x hx
    dsimp only
    omega
  · unfold scanImportsSass
    apply List.Pairwise.filter
    rw [List.pairwise_map]
    refine List.Pairwise.imp ?_
      ((scanAll_bounds matchImportSass (content.data.length + 1) true 0 content.data).2)
    intro a b hab
    dsimp only
    have := Nat.le_max_left a.2.1 1
    omega

/-- C4: the scanners emit directives with strictly increasing,
non-overlapping spans (each span ends at or before the next begins, and
every span is nonempty), and in the rebuild branch the assembler's result
is the right fold of the splice steps over the directive list — the
right fold processes the last directive (the one with the largest offset)
first and the first directive last, so every splice happens at offsets
still valid in the accumulated text. -/
theorem c4_reverse_span_order :
    (∀ content : String,
      ((∀ r ∈ scanImportsScss content, r.index < r.endIndex) ∧
        List.Pairwise (fun a b => a.endIndex ≤ b.index) (scanImportsScss content)) ∧
      ((∀ r ∈ scanImportsSass content, r.index < r.endIndex) ∧
        List.Pairwise (fun a b => a.endIndex ≤ b.index) (scanImportsSass content))) ∧
    (∀ (opts : BuildOptions) (format : String) (fuel : Nat) (inputFile : SassMergeFile)
        (files : FilesMap) (buildTime : Nat) (importPath : List String) (content0 : String),
      inputFile.path ∉ importPath →
      SassMergeFile.hasChanges (fuel + 1) inputFile format files = .ok true →
      inputFile.getUnprocessedContent format = some content0 →
      buildFinalFile opts format (fuel + 1) inputFile files buildTime importPath =
        Except.map (postAssemble opts format inputFile buildTime)
          ((inputFile.getImports format).foldrM
            (fun imp st =>
              spliceOne
                (fun pf fs =>
                  buildFinalFile opts format fuel pf fs buildTime
                    (importPath ++ [inputFile.path]))
                inputFile.path st imp)
            (content0, files))) := by
  constructor
  · intro content
    exact ⟨scanImportsScss_spans content, scanImportsSass_spans content⟩
  · intro opts format fuel inputFile files buildTime importPath content0 hnm hch hun
    simp only [buildFinalFile]
    rw [if_neg hnm, hch]
    dsimp only
    rw [hun]
    dsimp only
    rw [List.foldlM_reverse]
    cases hfold : (inputFile.getImports format).foldrM
        (fun x y =>
          spliceOne
            (fun pf fs =>
              buildFinalFile opts format fuel pf fs buildTime
                (importPath ++ [inputFile.path]))
            inputFile.path y x)
        (content0, files) with
    | error e => simp [Except.map]
    | ok st =>
      obtain ⟨content1, files1⟩ := st
      simp [Except.map, postAssemble]

/-- Witness for C4: the rebuild-branch fold equation at the concrete linear
graph. -/
theorem c4_reverse_span_order_witness :
    (demoFileA.path ∉ ([] : List String)) ∧
    SassMergeFile.hasChanges 3 demoFileA ("scss") demoFilesLin = .ok true ∧
    demoFileA.getUnprocessedContent ("scss") = some ("@import \"/b.scss\";x:1;") ∧
    buildFinalFile demoOpts ("scss") 3 demoFileA demoFilesLin 2 [] =
      Except.map (postAssemble demoOpts ("scss") demoFileA 2)
        ((demoFileA.getImports ("scss")).foldrM
          (fun imp st =>
            spliceOne
              (fun pf fs =>
                buildFinalFile demoOpts ("scss") 2 pf fs 2 ([] ++ [demoFileA.path]))
              demoFileA.path st imp)
          ("@import \"/b.scss\";x:1;", demoFilesLin)) :=
  ⟨by decide, by decide, by decide,
    (c4_reverse_span_order).2 demoOpts ("scss") 2 demoFileA demoFilesLin 2 []
      ("@import \"/b.scss\";x:1;") (by decide) (by decide) (by decide)⟩

/-! ### Incremental rebuild (towards C2) -/

theorem mem_keys_lookup {m : FilesMap} {k : String} (h : k ∈ m.map Prod.fst) :
    ∃ f, lookupFM m k = some f ∧ (k, f) ∈ m := by
  induction m with
  | nil => simp at h
  | cons hd t ih =>
    obtain ⟨k0, v0⟩ := hd
    by_cases hk : k0 = k
    · subst hk
      exact ⟨v0, by simp [lookupFM], by simp⟩
    · have hk' : k ∈ t.map Prod.fst := by
        simp only [List.map_cons, List.mem_cons] at h
        rcases h with h | h
        · exact absurd h.symm hk
        · exact h
      obtain ⟨f, hl, hm⟩ := ih hk'
      exact ⟨f, by simp [lookupFM, hk, hl], List.mem_cons_of_mem _ hm⟩

theorem setKey_mem : ∀ {m : FilesMap} {k0 : String} {v0 : SassMergeFile} {k : String}
    {v : SassMergeFile}, (k, v) ∈ setKey m k0 v0 → (k, v) ∈ m ∨ (k = k0 ∧ v = v0) := by
  intro m
  induction m with
  | nil =>
    intro k0 v0 k v h
    simp [setKey] at h
    exact Or.inr h
  | cons hd t ih =>
    intro k0 v0 k v h
    obtain ⟨k1, v1⟩ := hd
    by_cases hk : k1 = k0
    · subst hk
      simp only [setKey, if_pos rfl] at h
      rcases List.mem_cons.mp h with h1 | h1
      · right
        obtain ⟨e1, e2⟩ := Prod.mk.injEq .. ▸ h1
        exact ⟨e1.symm ▸ rfl, e2.symm ▸ rfl⟩
      · exact Or.inl (List.mem_cons_of_mem _ h1)
    · simp only [setKey, if_neg hk] at h
      rcases List.mem_cons.mp h with h1 | h1
      · exact Or.inl (by simp [h1])
      · rcases ih h1 with h2 | h2
        · exact Or.inl (List.mem_cons_of_mem _ h2)
        · exact Or.inr h2

theorem setKey_keys {m : FilesMap} {k0 : String} {v0 : SassMergeFile} {k : String} :
    k ∈ (setKey m k0 v0).map Prod.fst ↔ (k ∈ m.map Prod.fst ∨ k = k0) := by
  induction m with
  | nil => simp [setKey]
  | cons hd t ih =>
    obtain ⟨k1, v1⟩ := hd
    by_cases hk : k1 = k0
    · subst hk
      rw [show setKey ((k1, v1) :: t) k1 v0 = (k1, v0) :: t from by simp [setKey]]
      simp only [List.map_cons, List.mem_cons]
      tauto
    · rw [show setKey ((k1, v1) :: t) k0 v0 = (k1, v1) :: setKey t k0 v0 from by
        simp [setKey, hk]]
      simp only [List.map_cons, List.mem_cons, ih]
      tauto

theorem enqueueImports_spec : ∀ (ds : List ImportRef) (initiated : List String),
    (∀ x ∈ initiated, x ∈ (enqueueImports initiated ds).1) ∧
    (∀ d ∈ ds, d.filePath ∈ (enqueueImports initiated ds).1) ∧
    (∀ x ∈ (enqueueImports initiated ds).2, ∃ d ∈ ds, d.filePath = x) ∧
    (∀ x ∈ (enqueueImports initiated ds).1,
      x ∈ initiated ∨ x ∈ (enqueueImports initiated ds).2) := by
  intro ds
  induction ds with
  | nil =>
    intro initiated
    simp [enqueueImports]
  | cons d rest ih =>
    intro initiated
    by_cases hd : d.filePath ∈ initiated
    · have heq : enqueueImports initiated (d :: rest) = enqueueImports initiated rest := by
        simp [enqueueImports, hd]
      obtain ⟨a, b, c, e⟩ := ih initiated
      rw [heq]
      refine ⟨a, ?_, ?_, e⟩
      · intro d' hd'
        rcases List.mem_cons.mp hd' with h | h
        · exact h ▸ a _ hd
        · exact b d' h
      · intro x hx
        obtain ⟨d', hd', he⟩ := c x hx
        exact ⟨d', List.mem_cons_of_mem _ hd', he⟩
    · rcases he : enqueueImports (initiated ++ [d.filePath]) rest with ⟨i', ns⟩
      have heq : enqueueImports initiated (d :: rest) = (i', d.filePath :: ns) := by
        simp [enqueueImports, hd, he]
      obtain ⟨a, b, c, e⟩ := ih (initiated ++ [d.filePath])
      rw [he] at a b c e
      rw [heq]
      refine ⟨?_, ?_, ?_, ?_⟩
      · intro x hx
        exact a x (by simp [hx])
      · intro d' hd'
        rcases List.mem_cons.mp hd' with h | h
        · subst h
          exact a d'.filePath (by simp)
        · exact b d' h
      · intro x hx
        rcases List.mem_cons.mp hx with h | h
        · exact ⟨d, List.mem_cons_self _ _, h.symm⟩
        · obtain ⟨d', hd', hee⟩ := c x h
          exact ⟨d', List.mem_cons_of_mem _ hd', hee⟩
      · intro x hx
        rcases e x hx with h | h
        · rcases List.mem_append.mp h with h1 | h1
          · exact Or.inl h1
          · simp only [List.mem_singleton] at h1
            exact Or.inr (h1 ▸ List.mem_cons_self _ _)
        · exact Or.inr (List.mem_cons_of_mem _ h)

/-- getFile on a cache hit with unchanged on-disk text returns the cached
record and the untouched cache. -/
theorem getFile_hit {read : String → String} {p : String} {t : Nat} {cache : FilesMap}
    {f : SassMergeFile} (hl : lookupFM cache p = some f)
    (hc : f.getUnprocessedContent f.originalFormat = some (read p)) :
    getFile read p t cache = .ok (cache, f) := by
  simp [getFile, hl, hc]

theorem loadGo_zero (read : String → String) (t : Nat) (cache : FilesMap)
    (queue initiated : List String) (files : FilesMap) :
    loadGo read 0 t cache queue initiated files =
      (match queue with
       | [] => .ok (cache, files)
       | _ :: _ => .error .fuelExhausted) := rfl

theorem loadGo_succ (read : String → String) (n t : Nat) (cache : FilesMap)
    (queue initiated : List String) (files : FilesMap) :
    loadGo read (n + 1) t cache queue initiated files =
      (match queue with
       | [] => .ok (cache, files)
       | p :: qs =>
         match getFile read p t cache with
         | .error e => .error e
         | .ok (cache', file) =>
           match enqueueImports initiated (file.getImports file.originalFormat) with
           | (initiated', newPaths) =>
             loadGo read n t cache' (qs ++ newPaths) initiated'
               (setKey files file.path file)) := rfl

/-- The loader over a cache whose records are all up to date: the cache is
left untouched, every registered record comes from the cache, and the
registered map is closed under native-format directive targets. -/
theorem loadGo_cached (read : String → String) (t2 : Nat) (cache : FilesMap)
    (hkeys : ∀ p f, (p, f) ∈ cache → f.path = p)
    (hread : ∀ p f, (p, f) ∈ cache →
      f.getUnprocessedContent f.originalFormat = some (read p))
    (hclosed : ∀ p f, (p, f) ∈ cache → ∀ d ∈ f.getImports f.originalFormat,
      d.filePath ∈ cache.map Prod.fst) :
    ∀ (fuel : Nat) (queue initiated : List String) (filesAcc : FilesMap),
      (∀ q ∈ queue, q ∈ cache.map Prod.fst) →
      (∀ p f, (p, f) ∈ filesAcc → (p, f) ∈ cache) →
      (∀ p f, (p, f) ∈ filesAcc → ∀ d ∈ f.getImports f.originalFormat,
        d.filePath ∈ initiated) →
      (∀ q ∈ initiated, q ∈ filesAcc.map Prod.fst ∨ q ∈ queue) →
      ∀ (cache2 files : FilesMap),
        loadGo read fuel t2 cache queue initiated filesAcc = .ok (cache2, files) →
        cache2 = cache ∧
        (∀ p f, (p, f) ∈ files → (p, f) ∈ cache) ∧
        (∀ p f, (p, f) ∈ files → ∀ d ∈ f.getImports f.originalFormat,
          d.filePath ∈ files.map Prod.fst) := by
  intro fuel
  induction fuel with
  | zero =>
    intro queue initiated filesAcc hq hfa hInv1 hInv2 cache2 files hrun
    rw [loadGo_zero] at hrun
    cases queue with
    | cons p qs => cases hrun
    | nil =>
      simp only [Except.ok.injEq, Prod.mk.injEq] at hrun
      obtain ⟨h1, h2⟩ := hrun
      subst h1; subst h2
      refine ⟨rfl, hfa, ?_⟩
      intro p f hm d hd
      rcases hInv2 d.filePath (hInv1 p f hm d hd) with h | h
      · exact h
      · simp at h
  | succ n ih =>
    intro queue initiated filesAcc hq hfa hInv1 hInv2 cache2 files hrun
    rw [loadGo_succ] at hrun
    cases queue with
    | nil =>
      simp only [Except.ok.injEq, Prod.mk.injEq] at hrun
      obtain ⟨h1, h2⟩ := hrun
      subst h1; subst h2
      refine ⟨rfl, hfa, ?_⟩
      intro p f hm d hd
      rcases hInv2 d.filePath (hInv1 p f hm d hd) with h | h
      · exact h
      · simp at h
    | cons p qs =>
      dsimp only at hrun
      obtain ⟨f0, hlf, hmf⟩ := mem_keys_lookup (hq p (List.mem_cons_self _ _))
      rw [getFile_hit hlf (hread p f0 hmf)] at hrun
      dsimp only at hrun
      rcases henq : enqueueImports initiated (f0.getImports f0.originalFormat)
        with ⟨i', ns⟩
      rw [henq] at hrun
      dsimp only at hrun
      obtain ⟨ea, eb, ec, ed⟩ := enqueueImports_spec
        (f0.getImports f0.originalFormat) initiated
      rw [henq] at ea eb ec ed
      have hpf : f0.path = p := hkeys p f0 hmf
      rw [hpf] at hrun
      refine ih (qs ++ ns) i' (setKey filesAcc p f0) ?_ ?_ ?_ ?_ cache2 files hrun
      · intro q hqm
        rcases List.mem_append.mp hqm with h | h
        · exact hq q (List.mem_cons_of_mem _ h)
        · obtain ⟨d, hdm, he⟩ := ec q h
          exact he ▸ hclosed p f0 hmf d hdm
      · intro p' f' hm'
        rcases setKey_mem hm' with h | ⟨h1, h2⟩
        · exact hfa p' f' h
        · subst h1; subst h2; exact hmf
      · intro p' f' hm' d hd
        rcases setKey_mem hm' with h | ⟨h1, h2⟩
        · exact ea _ (hInv1 p' f' h d hd)
        · subst h1; subst h2
          exact eb d hd
      · intro q hqm
        rcases ed q hqm with h | h
        · rcases hInv2 q h with h1 | h1
          · exact Or.inl (setKey_keys.mpr (Or.inl h1))
          · rcases List.mem_cons.mp h1 with h2 | h2
            · exact Or.inl (setKey_keys.mpr (Or.inr h2))
            · exact Or.inr (List.mem_append.mpr (Or.inl h2))
        · exact Or.inr (List.mem_append.mpr (Or.inr h))

/-- Selection over a map whose records all hold target-format content is
empty. -/
theorem selectConvertable_all_unproc {fmt : String} : ∀ (files : FilesMap),
    (∀ p f, (p, f) ∈ files → f.hasUnprocessedContent fmt = true) →
    selectConvertable fmt files = ([], []) := by
  intro files
  induction files with
  | nil => intro _; rfl
  | cons hd t ih =>
    intro h
    obtain ⟨q, g⟩ := hd
    have hu := h q g (List.mem_cons_self _ _)
    have ht := ih (fun p f hm => h p f (List.mem_cons_of_mem _ hm))
    simp [selectConvertable, ht, hu]

theorem hasChangesDeps_nil (hc : SassMergeFile → Except BuildError Bool)
    (f : SassMergeFile) (format : String) (files : FilesMap) :
    hasChangesDeps hc f format files [] = .ok false := rfl

theorem hasChangesDeps_cons (hc : SassMergeFile → Except BuildError Bool)
    (f : SassMergeFile) (format : String) (files : FilesMap) (d : ImportRef)
    (rest : List ImportRef) :
    hasChangesDeps hc f format files (d :: rest) =
      (match lookupFM files d.filePath with
       | none => .error .typeError
       | some file =>
         if file.buildTime > f.buildTime then .ok true
         else if !(file.hasFinalContent format) then .ok true
         else
           match hc file with
           | .error e => .error e
           | .ok true => .ok true
           | .ok false => hasChangesDeps hc f format files rest) := rfl

/-- Over a map whose records all have final target content, a common build
marker, closed target-format directive targets, and a strictly decreasing
rank along target-format dependencies, the staleness check returns false
for every record whenever the fuel exceeds the record's rank. -/
theorem hasChanges_stable (fmt : String) (t : Nat) (files : FilesMap)
    (rank : String → Nat)
    (hfin : ∀ p f, (p, f) ∈ files → f.hasFinalContent fmt = true)
    (htime : ∀ p f, (p, f) ∈ files → f.buildTime = t)
    (hcl : ∀ p f, (p, f) ∈ files → ∀ d ∈ f.getImports fmt,
      d.filePath ∈ files.map Prod.fst)
    (hrk : ∀ p f, (p, f) ∈ files → ∀ d ∈ f.getImports fmt,
      rank d.filePath < rank p) :
    ∀ (fuel : Nat) (p : String) (f : SassMergeFile), (p, f) ∈ files → rank p < fuel →
      SassMergeFile.hasChanges fuel f fmt files = .ok false := by
  intro fuel
  induction fuel with
  | zero => intro p f hm hr; omega
  | succ n ih =>
    intro p f hm hr
    rw [SassMergeFile.hasChanges]
    rw [hfin p f hm]
    rw [show (!true) = false from rfl]
    rw [if_neg Bool.false_ne_true]
    have hdeps : ∀ ds : List ImportRef, (∀ d ∈ ds, d ∈ f.getImports fmt) →
        hasChangesDeps (fun g => SassMergeFile.hasChanges n g fmt files) f fmt files ds
          = .ok false := by
      intro ds
      induction ds with
      | nil => intro _; exact hasChangesDeps_nil _ _ _ _
      | cons d rest ihd =>
        intro hsub
        have hdmem : d ∈ f.getImports fmt := hsub d (List.mem_cons_self _ _)
        obtain ⟨g, hlg, hgm⟩ := mem_keys_lookup (hcl p f hm d hdmem)
        rw [hasChangesDeps_cons, hlg]
        dsimp only
        rw [htime _ _ hgm, htime _ _ hm]
        rw [if_neg (by omega : ¬ t > t)]
        rw [hfin _ _ hgm]
        rw [show (!true) = false from rfl]
        rw [if_neg Bool.false_ne_true]
        rw [ih d.filePath g hgm (by
          have := hrk p f hm d hdmem
          omega)]
        dsimp only
        exact ihd (fun d' hd' => hsub d' (List.mem_cons_of_mem _ hd'))
    exact hdeps (f.getImports fmt) (fun d hd => hd)

/-- C2: rebuilding against the cache left by a completed successful build,
with unchanged on-disk text, is a full cache hit: the loader returns with
the cache untouched and every registered record taken from it unchanged;
conversion selection is empty, so the converter collaborator is not
invoked (the returned flag is false, for an arbitrary converter oracle);
and the assembler returns the stored final text byte-identically, leaving
the files map unchanged, because the staleness check is false everywhere
(all records share the build marker and have final content, and the
target-format dependency graph is acyclic, witnessed by a rank).  The
post-build state is characterised by the hypotheses: well-keyed records,
native text matching the read oracle, final and unprocessed target
content everywhere, one common marker, directive-target closure, target
directives covered by native ones, and the rank witness. -/
theorem c2_unchanged_rebuild :
    ∀ (read : String → String) (fmt : String) (cache : FilesMap) (t : Nat)
      (rank : String → Nat)
      (conv : List (String × String) → Except Unit (List (String × String)))
      (opts : BuildOptions) (root : String) (fuel t2 : Nat)
      (cache2 : FilesMap) (input : SassMergeFile) (files : FilesMap),
      (∀ p f, (p, f) ∈ cache → f.path = p) →
      (∀ p f, (p, f) ∈ cache →
        f.getUnprocessedContent f.originalFormat = some (read p)) →
      (∀ p f, (p, f) ∈ cache → f.hasFinalContent fmt = true) →
      (∀ p f, (p, f) ∈ cache → f.hasUnprocessedContent fmt = true) →
      (∀ p f, (p, f) ∈ cache → f.buildTime = t) →
      (∀ p f, (p, f) ∈ cache → ∀ d ∈ f.getImports f.originalFormat,
        d.filePath ∈ cache.map Prod.fst) →
      (∀ p f, (p, f) ∈ cache → ∀ d ∈ f.getImports fmt,
        ∃ d' ∈ f.getImports f.originalFormat, d'.filePath = d.filePath) →
      (∀ p f, (p, f) ∈ cache → ∀ d ∈ f.getImports fmt, rank d.filePath < rank p) →
      root ∈ cache.map Prod.fst →
      loadAllFiles read fuel t2 cache root = .ok (cache2, input, files) →
      cache2 = cache ∧
      (∀ p f, (p, f) ∈ files → (p, f) ∈ cache) ∧
      prepareFilesToFormat conv files fmt t2 = .ok (files, [], false) ∧
      (∀ bfuel, rank root < bfuel →
        ∃ out, input.getFinalContent fmt = some out ∧
          buildFinalFile opts fmt bfuel input files t2 [] = .ok (out, files)) := by
  intro read fmt cache t rank conv opts root fuel t2 cache2 input files
    hkeys hread hfin hunp htime hclN himps hrk hroot hload
  unfold loadAllFiles at hload
  cases hgo : loadGo read fuel t2 cache [root] [root] [] with
  | error e => rw [hgo] at hload; cases hload
  | ok pr =>
    obtain ⟨c2', fl⟩ := pr
    rw [hgo] at hload
    dsimp only at hload
    cases hlk : lookupFM fl root with
    | none => rw [hlk] at hload; cases hload
    | some inp =>
      rw [hlk] at hload
      simp only [Except.ok.injEq, Prod.mk.injEq] at hload
      obtain ⟨e1, e2, e3⟩ := hload
      subst e1; subst e2; subst e3
      obtain ⟨hc2, hsub, hclfiles⟩ := loadGo_cached read t2 cache hkeys hread hclN fuel
        [root] [root] []
        (by intro q hq; simp only [List.mem_singleton] at hq; subst hq; exact hroot)
        (by intro p f hm; simp at hm)
        (by intro p f hm; simp at hm)
        (by intro q hq; exact Or.inr hq)
        c2' fl hgo
      have hin : (root, inp) ∈ fl := lookupFM_mem hlk
      refine ⟨hc2, hsub, ?_, ?_⟩
      · unfold prepareFilesToFormat
        rw [selectConvertable_all_unproc fl (fun p f hm => hunp p f (hsub p f hm))]
        rfl
      · intro bfuel hbf
        have hfin' : ∀ p f, (p, f) ∈ fl → f.hasFinalContent fmt = true :=
          fun p f hm => hfin p f (hsub p f hm)
        have htime' : ∀ p f, (p, f) ∈ fl → f.buildTime = t :=
          fun p f hm => htime p f (hsub p f hm)
        have hclF : ∀ p f, (p, f) ∈ fl → ∀ d ∈ f.getImports fmt,
            d.filePath ∈ fl.map Prod.fst := by
          intro p f hm d hd
          obtain ⟨d', hd', he⟩ := himps p f (hsub p f hm) d hd
          rw [← he]
          exact hclfiles p f hm d' hd'
        have hrk' : ∀ p f, (p, f) ∈ fl → ∀ d ∈ f.getImports fmt,
            rank d.filePath < rank p :=
          fun p f hm => hrk p f (hsub p f hm)
        cases bfuel with
        | zero => omega
        | succ n =>
          have hch := hasChanges_stable fmt t fl rank hfin' htime' hclF hrk'
            (n + 1) root inp hin hbf
          have hout : ∃ out, inp.getFinalContent fmt = some out := by
            have hh := hfin' root inp hin
            unfold SassMergeFile.hasFinalContent at hh
            unfold SassMergeFile.getFinalContent
            cases hcf : inp.contentFor fmt with
            | none => rw [hcf] at hh; cases hh
            | some slot =>
              rw [hcf] at hh
              dsimp only at hh
              cases hso : slot.final with
              | none => rw [hso] at hh; simp at hh
              | some o => exact ⟨o, by simp [hso]⟩
          obtain ⟨out, ho⟩ := hout
          refine ⟨out, ho, ?_⟩
          simp only [buildFinalFile]
          rw [if_neg (by simp : ¬ inp.path ∈ ([] : List String))]
          rw [hch]
          dsimp only
          rw [ho]
          rfl

/-- Witness for C2 at the two-record post-build cache. -/
theorem c2_unchanged_rebuild_witness :
    demoCacheBuilt = demoCacheBuilt ∧
    (∀ p f, (p, f) ∈ demoCacheBuilt → (p, f) ∈ demoCacheBuilt) ∧
    prepareFilesToFormat demoConv demoCacheBuilt ("scss") 2 =
      .ok (demoCacheBuilt, [], false) ∧
    (∀ bfuel, demoRank ("/a.scss") < bfuel →
      ∃ out, demoFileABuilt.getFinalContent ("scss") = some out ∧
        buildFinalFile demoOpts ("scss") bfuel demoFileABuilt demoCacheBuilt 2 [] =
          .ok (out, demoCacheBuilt)) :=
  c2_unchanged_rebuild demoReadLin ("scss") demoCacheBuilt 1 demoRank demoConv demoOpts
    ("/a.scss") 3 2 demoCacheBuilt demoFileABuilt demoCacheBuilt
    (by
      intro p f hm
      simp only [demoCacheBuilt, List.mem_cons, List.not_mem_nil, or_false] at hm
      rcases hm with h | h <;>
        (rw [Prod.mk.injEq] at h; obtain ⟨h1, h2⟩ := h; subst h1; subst h2; decide))
    (by
      intro p f hm
      simp only [demoCacheBuilt, List.mem_cons, List.not_mem_nil, or_false] at hm
      rcases hm with h | h <;>
        (rw [Prod.mk.injEq] at h; obtain ⟨h1, h2⟩ := h; subst h1; subst h2; decide))
    (by
      intro p f hm
      simp only [demoCacheBuilt, List.mem_cons, List.not_mem_nil, or_false] at hm
      rcases hm with h | h <;>
        (rw [Prod.mk.injEq] at h; obtain ⟨h1, h2⟩ := h; subst h1; subst h2; decide))
    (by
      intro p f hm
      simp only [demoCacheBuilt, List.mem_cons, List.not_mem_nil, or_false] at hm
      rcases hm with h | h <;>
        (rw [Prod.mk.injEq] at h; obtain ⟨h1, h2⟩ := h; subst h1; subst h2; decide))
    (by
      intro p f hm
      simp only [demoCacheBuilt, List.mem_cons, List.not_mem_nil, or_false] at hm
      rcases hm with h | h <;>
        (rw [Prod.mk.injEq] at h; obtain ⟨h1, h2⟩ := h; subst h1; subst h2; decide))
    (by
      intro p f hm
      simp only [demoCacheBuilt, List.mem_cons, List.not_mem_nil, or_false] at hm
      rcases hm with h | h <;>
        (rw [Prod.mk.injEq] at h; obtain ⟨h1, h2⟩ := h; subst h1; subst h2; decide))
    (by
      intro p f hm
      simp only [demoCacheBuilt, List.mem_cons, List.not_mem_nil, or_false] at hm
      rcases hm with h | h <;>
        (rw [Prod.mk.injEq] at h; obtain ⟨h1, h2⟩ := h; subst h1; subst h2; decide))
    (by
      intro p f hm
      simp only [demoCacheBuilt, List.mem_cons, List.not_mem_nil, or_false] at hm
      rcases hm with h | h <;>
        (rw [Prod.mk.injEq] at h; obtain ⟨h1, h2⟩ := h; subst h1; subst h2; decide))
    (by decide)
    (by decide)

/-- C9: when the loader completes, any failure of the later conversion or
assembly stages is rethrown annotated with the key list of the loaded
files map; a manifest failure or a failure inside the loading phase itself
is rethrown with no such set; a fully successful run returns the
stylesheet. -/
theorem c9_failure_touched_files :
    ∀ (read : String → String)
      (convert : List (String × String) → Except Unit (List (String × String)))
      (opts : BuildOptions) (target : String) (fuel buildTime : Nat)
      (cache : FilesMap) (inputFilePath : String),
      (buildInternal read convert false opts target fuel buildTime cache inputFilePath =
        .error (.manifestBroken, none)) ∧
      (∀ e, loadAllFiles read fuel buildTime cache inputFilePath = .error e →
        buildInternal read convert true opts target fuel buildTime cache inputFilePath =
          .error (e, none)) ∧
      (∀ cache' input files,
        loadAllFiles read fuel buildTime cache inputFilePath = .ok (cache', input, files) →
        (∀ e,
          prepareFilesToFormat convert files target buildTime = .error e →
          buildInternal read convert true opts target fuel buildTime cache inputFilePath =
            .error (e, some (files.map Prod.fst))) ∧
        (∀ e files1 convL invd,
          prepareFilesToFormat convert files target buildTime = .ok (files1, convL, invd) →
          buildFinalFile opts target fuel input files1 buildTime [] = .error e →
          buildInternal read convert true opts target fuel buildTime cache inputFilePath =
            .error (e, some (files.map Prod.fst))) ∧
        (∀ s files1 convL invd files2,
          prepareFilesToFormat convert files target buildTime = .ok (files1, convL, invd) →
          buildFinalFile opts target fuel input files1 buildTime [] = .ok (s, files2) →
          buildInternal read convert true opts target fuel buildTime cache inputFilePath =
            .ok (s, files2, cache'))) := by
  intro read convert opts target fuel buildTime cache inputFilePath
  refine ⟨rfl, ?_, ?_⟩
  · intro e hload
    simp only [buildInternal]
    rw [hload]
    rfl
  · intro cache' input files hload
    refine ⟨?_, ?_, ?_⟩
    · intro e hprep
      simp only [buildInternal]
      rw [hload]
      dsimp only
      rw [hprep]
      rfl
    · intro e files1 convL invd hprep hbuild
      simp only [buildInternal]
      rw [hload]
      dsimp only
      rw [hprep]
      dsimp only
      rw [hbuild]
      rfl
    · intro s files1 convL invd files2 hprep hbuild
      simp only [buildInternal]
      rw [hload]
      dsimp only
      rw [hprep]
      dsimp only
      rw [hbuild]
      rfl

/-- Witness for C9: the mutually importing pair loads fully, the assembler
fails on the cycle, and the orchestrator's error carries both loaded
paths. -/
theorem c9_failure_touched_files_witness :
    loadAllFiles demoReadCyc 5 1 [] ("/a.scss") =
      .ok (demoFilesAB, demoFileA, demoFilesAB) ∧
    prepareFilesToFormat demoConv demoFilesAB ("scss") 1 = .ok (demoFilesAB, [], false) ∧
    buildFinalFile demoOpts ("scss") 5 demoFileA demoFilesAB 1 [] =
      .error (.circular ["/a.scss", "/b.scss", "/a.scss"]) ∧
    buildInternal demoReadCyc demoConv true demoOpts ("scss") 5 1 [] ("/a.scss") =
      .error (.circular ["/a.scss", "/b.scss", "/a.scss"],
        some (demoFilesAB.map Prod.fst)) :=
  ⟨by decide, by decide, by decide,
    ((c9_failure_touched_files demoReadCyc demoConv demoOpts ("scss") 5 1 []
        ("/a.scss")).2.2 demoFilesAB demoFileA demoFilesAB (by decide)).2.1
      (.circular ["/a.scss", "/b.scss", "/a.scss"]) demoFilesAB [] false
      (by decide) (by decide)⟩

end SassMerge
